import Mathlib

/-!
The block tree of goblockly and its name-keyed accessors.

A shallow embedding of `blocks.go`.  The tree types (`Block`, `BlockValue`,
`BlockField`, `BlockStatement`, `BlockMutation`) are translated field by field;
a Go slice is a `List`, a pointer that may be nil is an `Option`.  The five
accessor methods are translated statement by statement: a `for ... range` loop
with an early `return` becomes a structural recursion over the list, and the
calls `i.Fail(reason)` become explicit state passing on the interpreter.
-/

namespace goblockly

/-! ## Tree model -/

/-- Go's `xml.Name`: a namespace identifier and a local name. -/
structure XmlName where
  Space : String
  Local : String
deriving DecidableEq, Repr

/-- A field attached to a Blockly block (`type BlockField struct`). -/
structure BlockField where
  Name : String
  Value : String
deriving DecidableEq, Repr

/-- Modifiers on Blockly blocks (`type BlockMutation struct`). -/
structure BlockMutation where
  At : Bool
  At1 : Bool
  At2 : Bool
  ElseIf : Int
  Else : Int
  Items : Int
  Mode : String
  Statement : Bool
deriving DecidableEq, Repr

mutual
/-- A single Blockly block (`type Block struct`).  The Go field `Type` is
spelled `Type_` here. -/
inductive Block where
  | mk (XMLName : XmlName) (Type_ : String) (X : String) (Y : String)
      (Values : List BlockValue) (Fields : List BlockField)
      (Statements : List BlockStatement) (Next : Option Block)
      (Mutation : Option BlockMutation)
/-- A value socket of a block (`type BlockValue struct`). -/
inductive BlockValue where
  | mk (Name : String) (Blocks : List Block)
/-- A statement socket of a block (`type BlockStatement struct`). -/
inductive BlockStatement where
  | mk (XMLName : XmlName) (Name : String) (Blocks : List Block)
end

/-- Field `XMLName` of a block. -/
def Block.XMLName : Block → XmlName
  | .mk n _ _ _ _ _ _ _ _ => n

/-- Field `Type` of a block. -/
def Block.Type_ : Block → String
  | .mk _ t _ _ _ _ _ _ _ => t

/-- Field `X` of a block. -/
def Block.X : Block → String
  | .mk _ _ x _ _ _ _ _ _ => x

/-- Field `Y` of a block. -/
def Block.Y : Block → String
  | .mk _ _ _ y _ _ _ _ _ => y

/-- Field `Values` of a block. -/
def Block.Values : Block → List BlockValue
  | .mk _ _ _ _ vs _ _ _ _ => vs

/-- Field `Fields` of a block. -/
def Block.Fields : Block → List BlockField
  | .mk _ _ _ _ _ fs _ _ _ => fs

/-- Field `Statements` of a block. -/
def Block.Statements : Block → List BlockStatement
  | .mk _ _ _ _ _ _ ss _ _ => ss

/-- Field `Next` of a block. -/
def Block.Next : Block → Option Block
  | .mk _ _ _ _ _ _ _ nx _ => nx

/-- Field `Mutation` of a block. -/
def Block.Mutation : Block → Option BlockMutation
  | .mk _ _ _ _ _ _ _ _ m => m

/-- Field `Name` of a value socket. -/
def BlockValue.Name : BlockValue → String
  | .mk n _ => n

/-- Field `Blocks` of a value socket. -/
def BlockValue.Blocks : BlockValue → List Block
  | .mk _ bs => bs

/-- Field `XMLName` of a statement socket. -/
def BlockStatement.XMLName : BlockStatement → XmlName
  | .mk x _ _ => x

/-- Field `Name` of a statement socket. -/
def BlockStatement.Name : BlockStatement → String
  | .mk _ n _ => n

/-- Field `Blocks` of a statement socket. -/
def BlockStatement.Blocks : BlockStatement → List Block
  | .mk _ _ bs => bs

/-! ## The failure channel -/

/-- Modelled from the spec: the `Interpreter` type and its method `Fail` are
used by `blocks.go` but declared elsewhere in the package.  The spec describes
the collaborator as "a single failure-reporting operation taking a
human-readable reason string", after which the accessor "continues returning a
safe zero value".  The state kept here is the record of the reasons reported so
far, oldest first. -/
structure Interpreter where
  failures : List String
deriving DecidableEq, Repr

/-- Modelled from the spec: `i.Fail(reason)` reports one failure with the given
reason to the failure channel and returns to its caller. -/
def Interpreter.Fail (i : Interpreter) (reason : String) : Interpreter :=
  { i with failures := i.failures ++ [reason] }

/-! ## Accessors -/

/-- The loop of `FieldWithName`: `for _, v := range b.Fields`, returning `&v`
at the first `v` with `v.Name == name`, and `nil` when the range is exhausted. -/
def FieldWithName.loop (name : String) : List BlockField → Option BlockField
  | [] => none
  | v :: rest => if v.Name = name then some v else FieldWithName.loop name rest

/-- `func (b *Block) FieldWithName(name string) *BlockField`. -/
def Block.FieldWithName (b : Block) (name : String) : Option BlockField :=
  FieldWithName.loop name b.Fields

/-- `func (b *Block) SingleFieldWithName(i *Interpreter, name string) string`.
The result is the returned string together with the interpreter after the call. -/
def Block.SingleFieldWithName (b : Block) (i : Interpreter) (name : String) :
    String × Interpreter :=
  match b.FieldWithName name with
  | none => ("", i.Fail ("No field named " ++ name))
  | some fv => (fv.Value, i)

/-- The loop of `BlockValueWithName`: `for _, v := range b.Values`, returning
`&v` at the first `v` with `v.Name == name`, and `nil` when the range is
exhausted. -/
def BlockValueWithName.loop (name : String) : List BlockValue → Option BlockValue
  | [] => none
  | v :: rest => if v.Name = name then some v else BlockValueWithName.loop name rest

/-- `func (b *Block) BlockValueWithName(name string) *BlockValue`. -/
def Block.BlockValueWithName (b : Block) (name : String) : Option BlockValue :=
  BlockValueWithName.loop name b.Values

/-- `func (b *Block) SingleBlockValueWithName(i *Interpreter, name string) *Block`.
The result is the returned pointer (`none` for nil) together with the
interpreter after the call. -/
def Block.SingleBlockValueWithName (b : Block) (i : Interpreter) (name : String) :
    Option Block × Interpreter :=
  match b.BlockValueWithName name with
  | none => (none, i.Fail ("No block with value " ++ name))
  | some bv =>
    if h : bv.Blocks.length ≠ 1 then
      (none, i.Fail "Block socket does not have exactly one block attached to it.")
    else
      (some (bv.Blocks.get ⟨0, by omega⟩), i)

/-- The loop of `SingleBlockStatementWithName`: `for _, v := range b.Statements`;
at the first `v` with `v.Name == name` the length of `v.Blocks` decides between
a reported failure with a nil result and `&v.Blocks[0]`; `none` stands for the
range being exhausted without a match, which the caller handles. -/
def SingleBlockStatementWithName.loop (i : Interpreter) (name : String) :
    List BlockStatement → Option (Option Block × Interpreter)
  | [] => none
  | v :: rest =>
    if v.Name = name then
      if h : v.Blocks.length ≠ 1 then
        some (none, i.Fail "Block socket does not have exactly one block attached to it.")
      else
        some (some (v.Blocks.get ⟨0, by omega⟩), i)
    else SingleBlockStatementWithName.loop i name rest

/-- `func (b *Block) SingleBlockStatementWithName(i *Interpreter, name string) *Block`.
The result is the returned pointer (`none` for nil) together with the
interpreter after the call. -/
def Block.SingleBlockStatementWithName (b : Block) (i : Interpreter) (name : String) :
    Option Block × Interpreter :=
  match SingleBlockStatementWithName.loop i name b.Statements with
  | some r => r
  | none => (none, i.Fail ("No statement with name " ++ name))

/-! ## Specification vocabulary -/

/-- The entry `v` at index `k` of `xs` is the first entry, in list order, whose
key equals `n`: it sits at index `k`, its key is `n`, and no entry at a smaller
index has key `n`. -/
def FirstNamed {α : Type} (key : α → String) (xs : List α) (n : String) (k : Nat)
    (v : α) : Prop :=
  xs[k]? = some v ∧ key v = n ∧ ∀ j, j < k → ∀ w, xs[j]? = some w → key w ≠ n

/-- The reason reported on a socket-arity violation. -/
def arityReason : String :=
  "Block socket does not have exactly one block attached to it."

/-! ## Sample trees -/

/-- A boolean literal block, used as the condition of `sampleIf`. -/
def sampleCond : Block :=
  .mk ⟨"", "block"⟩ "logic_boolean" "" "" [] [⟨"BOOL", "TRUE"⟩] [] none none

/-- A print block followed by a second print block, used as a statement body. -/
def sampleBody : Block :=
  .mk ⟨"", "block"⟩ "text_print" "" "" [] [⟨"TEXT", ""⟩] []
    (some (.mk ⟨"", "block"⟩ "text_print" "" "" [] [] [] none none)) none

/-- The `controls_if` block of the spec's scenario: value `IF0`, statement `DO0`,
mutation with `elseif = 0` and `else = 0`. -/
def sampleIf : Block :=
  .mk ⟨"", "block"⟩ "controls_if" "10" "20"
    [.mk "IF0" [sampleCond]] []
    [.mk ⟨"", "statement"⟩ "DO0" [sampleBody]] none
    (some ⟨false, false, false, 0, 0, 0, "", false⟩)

/-- A block whose value socket `A` holds two blocks and whose statement socket
`DO` holds none. -/
def sampleBadArity : Block :=
  .mk ⟨"", "block"⟩ "math_arithmetic" "" ""
    [.mk "B" [sampleCond], .mk "A" [sampleCond, sampleBody]] [⟨"OP", "ADD"⟩]
    [.mk ⟨"", "statement"⟩ "DO" []] none none

/-- A block with duplicate names: two fields named `VALUE`, two value sockets
named `A` (the first empty, the second holding one block) and two statement
sockets named `DO` (the first holding two blocks, the second one). -/
def sampleDup : Block :=
  .mk ⟨"", "block"⟩ "dup" "" ""
    [.mk "A" [], .mk "A" [sampleCond]]
    [⟨"NAME", "x"⟩, ⟨"VALUE", ""⟩, ⟨"VALUE", "2"⟩]
    [.mk ⟨"", "statement"⟩ "DO" [sampleCond, sampleBody],
     .mk ⟨"", "statement"⟩ "DO" [sampleBody]] none none

/-- An interpreter that has already recorded one failure. -/
def sampleInterp : Interpreter := ⟨["earlier"]⟩

/-! ## Calls through a receiver pointer

The accessors are methods on `*Block`.  Go lets a method with a pointer receiver
be called on a nil pointer; the panic comes when the body evaluates a field of
the receiver (`b.Fields`, `b.Values`, `b.Statements`).  The definitions below
retrace the five bodies with the receiver as a pointer, `none` standing for nil. -/

/-- A Go run-time panic. -/
inductive GoPanic where
  | nilDereference
deriving DecidableEq, Repr

/-- `b.FieldWithName(name)` on a receiver pointer: the range expression
`b.Fields` dereferences `b`. -/
def FieldWithName.call (b : Option Block) (name : String) :
    Except GoPanic (Option BlockField) :=
  match b with
  | none => .error .nilDereference
  | some blk => .ok (FieldWithName.loop name blk.Fields)

/-- `b.SingleFieldWithName(i, name)` on a receiver pointer: the body first calls
`b.FieldWithName(name)`; a panic there unwinds before `i.Fail` is reached. -/
def SingleFieldWithName.call (b : Option Block) (i : Interpreter) (name : String) :
    Except GoPanic (String × Interpreter) :=
  match FieldWithName.call b name with
  | .error p => .error p
  | .ok none => .ok ("", i.Fail ("No field named " ++ name))
  | .ok (some fv) => .ok (fv.Value, i)

/-- `b.BlockValueWithName(name)` on a receiver pointer: the range expression
`b.Values` dereferences `b`. -/
def BlockValueWithName.call (b : Option Block) (name : String) :
    Except GoPanic (Option BlockValue) :=
  match b with
  | none => .error .nilDereference
  | some blk => .ok (BlockValueWithName.loop name blk.Values)

/-- `b.SingleBlockValueWithName(i, name)` on a receiver pointer: the body first
calls `b.BlockValueWithName(name)`; a panic there unwinds before `i.Fail` is
reached. -/
def SingleBlockValueWithName.call (b : Option Block) (i : Interpreter) (name : String) :
    Except GoPanic (Option Block × Interpreter) :=
  match BlockValueWithName.call b name with
  | .error p => .error p
  | .ok none => .ok (none, i.Fail ("No block with value " ++ name))
  | .ok (some bv) =>
    if h : bv.Blocks.length ≠ 1 then
      .ok (none, i.Fail "Block socket does not have exactly one block attached to it.")
    else
      .ok (some (bv.Blocks.get ⟨0, by omega⟩), i)

/-- `b.SingleBlockStatementWithName(i, name)` on a receiver pointer: the range
expression `b.Statements` dereferences `b`. -/
def SingleBlockStatementWithName.call (b : Option Block) (i : Interpreter)
    (name : String) : Except GoPanic (Option Block × Interpreter) :=
  match b with
  | none => .error .nilDereference
  | some blk =>
    match SingleBlockStatementWithName.loop i name blk.Statements with
    | some r => .ok r
    | none => .ok (none, i.Fail ("No statement with name " ++ name))

/-! ## Accessor bodies as state transformers

The accessors run against a state made of the tree the receiver points to and
the interpreter.  A statement is a function from the state before it to a result
and the state after it; the bodies below are built from the statements
`blocks.go` uses: reading a field of the receiver and calling `i.Fail`. -/

/-- The state an accessor call runs in: the tree the receiver points to and the
interpreter. -/
structure World where
  tree : Block
  interp : Interpreter

/-- A statement sequence producing a value of type `α`. -/
def Exec (α : Type) : Type := World → α × World

/-- The statement `return a` seen from inside a sequence: no effect on the state. -/
def Exec.ret {α : Type} (a : α) : Exec α := fun w => (a, w)

/-- Sequencing: run `m`, then run `f` on its result in the state `m` left. -/
def Exec.seq {α β : Type} (m : Exec α) (f : α → Exec β) : Exec β :=
  fun w => f (m w).1 (m w).2

/-- Evaluating `b.Fields`. -/
def Exec.readFields : Exec (List BlockField) := fun w => (w.tree.Fields, w)

/-- Evaluating `b.Values`. -/
def Exec.readValues : Exec (List BlockValue) := fun w => (w.tree.Values, w)

/-- Evaluating `b.Statements`. -/
def Exec.readStatements : Exec (List BlockStatement) := fun w => (w.tree.Statements, w)

/-- The call `i.Fail(reason)`. -/
def Exec.callFail (reason : String) : Exec Unit :=
  fun w => ((), { w with interp := w.interp.Fail reason })

/-- The assignment `b.Fields = fs`.  No body in `blocks.go` contains an
assignment to the receiver; the statement is defined to show that the state can
record one. -/
def Exec.assignFields (fs : List BlockField) : Exec Unit :=
  fun w => ((), ⟨.mk w.tree.XMLName w.tree.Type_ w.tree.X w.tree.Y w.tree.Values fs
    w.tree.Statements w.tree.Next w.tree.Mutation, w.interp⟩)

/-- Body of `FieldWithName`: `for _, v := range b.Fields` with the early
`return &v`, then `return nil`. -/
def FieldWithName.body (name : String) : Exec (Option BlockField) :=
  Exec.seq Exec.readFields fun fields =>
  Exec.ret (FieldWithName.loop name fields)

/-- Body of `SingleFieldWithName`: `fv := b.FieldWithName(name)`, then on nil
`i.Fail("No field named " + name); return ""`, otherwise `return fv.Value`. -/
def SingleFieldWithName.body (name : String) : Exec String :=
  Exec.seq (FieldWithName.body name) fun fv =>
  match fv with
  | none =>
    Exec.seq (Exec.callFail ("No field named " ++ name)) fun _ =>
    Exec.ret ""
  | some f => Exec.ret f.Value

/-- Body of `BlockValueWithName`: `for _, v := range b.Values` with the early
`return &v`, then `return nil`. -/
def BlockValueWithName.body (name : String) : Exec (Option BlockValue) :=
  Exec.seq Exec.readValues fun values =>
  Exec.ret (BlockValueWithName.loop name values)

/-- Body of `SingleBlockValueWithName`: `bv := b.BlockValueWithName(name)`, the
nil test, the length test, each with its `i.Fail` and `return nil`, and
`return &bv.Blocks[0]`. -/
def SingleBlockValueWithName.body (name : String) : Exec (Option Block) :=
  Exec.seq (BlockValueWithName.body name) fun bv =>
  match bv with
  | none =>
    Exec.seq (Exec.callFail ("No block with value " ++ name)) fun _ =>
    Exec.ret none
  | some v =>
    if h : v.Blocks.length ≠ 1 then
      Exec.seq
        (Exec.callFail "Block socket does not have exactly one block attached to it.")
        fun _ => Exec.ret none
    else
      Exec.ret (some (v.Blocks.get ⟨0, by omega⟩))

/-- The range loop of `SingleBlockStatementWithName` over the statements read
from the receiver.  The result is `some r` when the loop returned `r` from
inside, and `none` when the range was exhausted. -/
def SingleBlockStatementWithName.rangeBody (name : String) :
    List BlockStatement → Exec (Option (Option Block))
  | [] => Exec.ret none
  | v :: rest =>
    if v.Name = name then
      if h : v.Blocks.length ≠ 1 then
        Exec.seq
          (Exec.callFail "Block socket does not have exactly one block attached to it.")
          fun _ => Exec.ret (some none)
      else
        Exec.ret (some (some (v.Blocks.get ⟨0, by omega⟩)))
    else SingleBlockStatementWithName.rangeBody name rest

/-- Body of `SingleBlockStatementWithName`: the range loop over `b.Statements`,
then `i.Fail("No statement with name " + name); return nil`. -/
def SingleBlockStatementWithName.body (name : String) : Exec (Option Block) :=
  Exec.seq Exec.readStatements fun statements =>
  Exec.seq (SingleBlockStatementWithName.rangeBody name statements) fun r =>
  match r with
  | some blk => Exec.ret blk
  | none =>
    Exec.seq (Exec.callFail ("No statement with name " ++ name)) fun _ =>
    Exec.ret none

/-- The five accessors of `blocks.go`. -/
inductive Accessor where
  | FieldWithName
  | SingleFieldWithName
  | BlockValueWithName
  | SingleBlockValueWithName
  | SingleBlockStatementWithName
deriving DecidableEq, Repr

/-- What an accessor call returns. -/
inductive Returned where
  | field (f : Option BlockField)
  | text (s : String)
  | value (v : Option BlockValue)
  | block (b : Option Block)

/-- One call of accessor `a` with lookup key `name`: its body, with the returned
value tagged by its type. -/
def Accessor.run (a : Accessor) (name : String) : Exec Returned :=
  match a with
  | .FieldWithName => Exec.seq (FieldWithName.body name) fun r => Exec.ret (.field r)
  | .SingleFieldWithName =>
    Exec.seq (SingleFieldWithName.body name) fun r => Exec.ret (.text r)
  | .BlockValueWithName =>
    Exec.seq (BlockValueWithName.body name) fun r => Exec.ret (.value r)
  | .SingleBlockValueWithName =>
    Exec.seq (SingleBlockValueWithName.body name) fun r => Exec.ret (.block r)
  | .SingleBlockStatementWithName =>
    Exec.seq (SingleBlockStatementWithName.body name) fun r => Exec.ret (.block r)

/-- A statement sequence has the tree as its frame when, from every state, the
tree after it is the tree before it. -/
def Exec.KeepsTree {α : Type} (m : Exec α) : Prop :=
  ∀ w, (m w).2.tree = w.tree

/-! ## Violated contracts

The spec's error taxonomy: a missing required field, a missing required socket,
and a socket arity violation. -/

/-- The contract of `SingleFieldWithName` is violated: no field is named `n`. -/
def FieldContractViolated (b : Block) (n : String) : Prop :=
  ∀ f ∈ b.Fields, f.Name ≠ n

/-- The contract of `SingleBlockValueWithName` is violated: no value socket is
named `n`, or the first one so named does not hold exactly one block. -/
def ValueContractViolated (b : Block) (n : String) : Prop :=
  (∀ v ∈ b.Values, v.Name ≠ n) ∨
  ∃ k v, FirstNamed BlockValue.Name b.Values n k v ∧ v.Blocks.length ≠ 1

/-- The contract of `SingleBlockStatementWithName` is violated: no statement
socket is named `n`, or the first one so named does not hold exactly one block. -/
def StatementContractViolated (b : Block) (n : String) : Prop :=
  (∀ v ∈ b.Statements, v.Name ≠ n) ∨
  ∃ k v, FirstNamed BlockStatement.Name b.Statements n k v ∧ v.Blocks.length ≠ 1

/-! ## Mutation decoding -/

/-- Modelled from the spec: a serialized mutation element.  `blocks.go` declares
`BlockMutation` and, by its struct tags, the attribute that feeds each field,
but contains no decoder.  The spec says that "Mutation elements carry their
flags/counts as attributes (`at`, `at1`, `at2`, `elseif`, `else`, `items`,
`mode`, `statement`)"; `attr name` is the text of the attribute `name`, and
`none` when the element does not carry it. -/
structure MutationElement where
  attr : String → Option String

/-- Modelled from the spec: decoding of a boolean attribute, "boolean attributes
default false"; the text of a present attribute is read by `readBool`. -/
def decodeBoolAttr (readBool : String → Option Bool) : Option String → Option Bool
  | none => some false
  | some s => readBool s

/-- Modelled from the spec: decoding of an integer attribute, "integer
attributes default 0"; the text of a present attribute is read by `readInt`. -/
def decodeIntAttr (readInt : String → Option Int) : Option String → Option Int
  | none => some 0
  | some s => readInt s

/-- Modelled from the spec: decoding of the mode attribute, "the mode string
defaults empty"; a present attribute gives its text. -/
def decodeStringAttr : Option String → String
  | none => ""
  | some s => s

/-- Modelled from the spec: decoding of a mutation element into a
`BlockMutation`.  The decoder itself is missing from `blocks.go`; each field is
read from the attribute its struct tag names (`xml:"at,attr"`, ...,
`xml:"statement,attr"`).  The readers of attribute text are parameters; the
result is `none` when the text of a present attribute is not readable. -/
def decodeMutation (readBool : String → Option Bool) (readInt : String → Option Int)
    (e : MutationElement) : Option BlockMutation :=
  match decodeBoolAttr readBool (e.attr "at"), decodeBoolAttr readBool (e.attr "at1"),
    decodeBoolAttr readBool (e.attr "at2"), decodeIntAttr readInt (e.attr "elseif"),
    decodeIntAttr readInt (e.attr "else"), decodeIntAttr readInt (e.attr "items"),
    decodeBoolAttr readBool (e.attr "statement") with
  | some a0, some a1, some a2, some ei, some el, some it, some st =>
    some ⟨a0, a1, a2, ei, el, it, decodeStringAttr (e.attr "mode"), st⟩
  | _, _, _, _, _, _, _ => none

/-- A reader of boolean attribute text, for the sample element. -/
def sampleReadBool (s : String) : Option Bool :=
  if s = "true" then some true else if s = "false" then some false else none

/-- Reading a run of decimal digits, most significant first. -/
def readDigits : List Char → Nat → Option Nat
  | [], acc => some acc
  | c :: cs, acc =>
    if c.isDigit then readDigits cs (10 * acc + (c.toNat - 48)) else none

/-- A reader of unsigned decimal attribute text, for the sample element. -/
def sampleReadInt (s : String) : Option Int :=
  match s.data with
  | [] => none
  | cs => (readDigits cs 0).map Int.ofNat

/-- The mutation element of the spec's example: `elseif="2"` and no other
attribute. -/
def sampleMutationElement : MutationElement :=
  ⟨fun name => if name = "elseif" then some "2" else none⟩

/-- A block whose statement sockets mirror the value sockets of `sampleDup`:
the same names with the same block lists in the same order. -/
def sampleMirror : Block :=
  .mk ⟨"", "block"⟩ "mirror" "" "" [] []
    [.mk ⟨"", "statement"⟩ "A" [], .mk ⟨"", "statement"⟩ "A" [sampleCond]] none none

/-! ## Lemmas on first-match search -/

theorem firstNamed_nil {α : Type} (key : α → String) (n : String) (k : Nat) (v : α) :
    ¬ FirstNamed key [] n k v := by
  intro h
  have h0 := h.1
  simp at h0

theorem firstNamed_cons_hit {α : Type} (key : α → String) (n : String) (a : α)
    (xs : List α) (ha : key a = n) (k : Nat) (v : α) :
    FirstNamed key (a :: xs) n k v ↔ k = 0 ∧ v = a := by
  constructor
  · rintro ⟨hk, _, hbefore⟩
    cases k with
    | zero =>
      simp at hk
      exact ⟨rfl, hk.symm⟩
    | succ k => exact absurd ha (hbefore 0 (Nat.succ_pos k) a (by simp))
  · rintro ⟨rfl, rfl⟩
    refine ⟨by simp, ha, ?_⟩
    intro j hj
    exact absurd hj (Nat.not_lt_zero j)

theorem firstNamed_cons_miss {α : Type} (key : α → String) (n : String) (a : α)
    (xs : List α) (ha : key a ≠ n) (k : Nat) (v : α) :
    FirstNamed key (a :: xs) n k v ↔ ∃ k0, k = k0 + 1 ∧ FirstNamed key xs n k0 v := by
  constructor
  · rintro ⟨hk, hv, hbefore⟩
    cases k with
    | zero =>
      simp at hk
      exact absurd (hk ▸ hv) ha
    | succ k =>
      refine ⟨k, rfl, by simpa using hk, hv, ?_⟩
      intro j hj w hw
      exact hbefore (j + 1) (Nat.succ_lt_succ hj) w (by simpa using hw)
  · rintro ⟨k0, rfl, hk, hv, hbefore⟩
    refine ⟨by simpa using hk, hv, ?_⟩
    intro j hj w hw
    cases j with
    | zero =>
      simp at hw
      exact hw ▸ ha
    | succ j => exact hbefore j (Nat.lt_of_succ_lt_succ hj) w (by simpa using hw)

/-- Two first entries named `n` in the same list coincide. -/
theorem firstNamed_unique {α : Type} (key : α → String) (xs : List α) (n : String)
    (k k2 : Nat) (v v2 : α) (h : FirstNamed key xs n k v)
    (h2 : FirstNamed key xs n k2 v2) : k = k2 ∧ v = v2 := by
  have hk : k = k2 := by
    rcases Nat.lt_trichotomy k k2 with hlt | heq | hgt
    · exact absurd h.2.1 (h2.2.2 k hlt v h.1)
    · exact heq
    · exact absurd h2.2.1 (h.2.2 k2 hgt v2 h2.1)
  subst hk
  exact ⟨rfl, Option.some.inj (h.1.symm.trans h2.1)⟩

/-- Some entry has key `n` exactly when there is a first one. -/
theorem exists_firstNamed_iff {α : Type} (key : α → String) (xs : List α) (n : String) :
    (∃ k v, FirstNamed key xs n k v) ↔ ∃ v ∈ xs, key v = n := by
  induction xs with
  | nil =>
    constructor
    · rintro ⟨k, v, h⟩
      exact absurd h (firstNamed_nil key n k v)
    · rintro ⟨v, hv, _⟩
      simp at hv
  | cons a xs ih =>
    by_cases ha : key a = n
    · constructor
      · intro _
        exact ⟨a, by simp, ha⟩
      · intro _
        exact ⟨0, a, (firstNamed_cons_hit key n a xs ha 0 a).2 ⟨rfl, rfl⟩⟩
    · constructor
      · rintro ⟨k, v, h⟩
        obtain ⟨k0, _, h0⟩ := (firstNamed_cons_miss key n a xs ha k v).1 h
        obtain ⟨w, hw, hwn⟩ := ih.1 ⟨k0, v, h0⟩
        exact ⟨w, List.mem_cons_of_mem a hw, hwn⟩
      · rintro ⟨w, hw, hwn⟩
        rcases List.mem_cons.1 hw with rfl | hmem
        · exact absurd hwn ha
        · obtain ⟨k0, v, h0⟩ := ih.2 ⟨w, hmem, hwn⟩
          exact ⟨k0 + 1, v, (firstNamed_cons_miss key n a xs ha (k0 + 1) v).2 ⟨k0, rfl, h0⟩⟩

/-! ## Lemmas on the accessor loops -/

theorem fieldLoop_eq_some_iff (n : String) (xs : List BlockField) (f : BlockField) :
    FieldWithName.loop n xs = some f ↔ ∃ k, FirstNamed BlockField.Name xs n k f := by
  induction xs with
  | nil =>
    simp only [FieldWithName.loop]
    constructor
    · intro h
      cases h
    · rintro ⟨k, h⟩
      exact absurd h (firstNamed_nil _ n k f)
  | cons a xs ih =>
    by_cases ha : a.Name = n
    · simp only [FieldWithName.loop, if_pos ha, firstNamed_cons_hit BlockField.Name n a xs ha]
      constructor
      · intro h
        exact ⟨0, rfl, (Option.some.inj h).symm⟩
      · rintro ⟨_, _, rfl⟩
        rfl
    · simp only [FieldWithName.loop, if_neg ha, firstNamed_cons_miss BlockField.Name n a xs ha, ih]
      constructor
      · rintro ⟨k, h⟩
        exact ⟨k + 1, k, rfl, h⟩
      · rintro ⟨_, k, _, h⟩
        exact ⟨k, h⟩

theorem fieldLoop_eq_none_iff (n : String) (xs : List BlockField) :
    FieldWithName.loop n xs = none ↔ ∀ f ∈ xs, f.Name ≠ n := by
  induction xs with
  | nil => simp [FieldWithName.loop]
  | cons a xs ih =>
    by_cases ha : a.Name = n
    · simp [FieldWithName.loop, ha]
    · simp [FieldWithName.loop, ha, ih]

theorem valueLoop_eq_some_iff (n : String) (xs : List BlockValue) (v : BlockValue) :
    BlockValueWithName.loop n xs = some v ↔ ∃ k, FirstNamed BlockValue.Name xs n k v := by
  induction xs with
  | nil =>
    simp only [BlockValueWithName.loop]
    constructor
    · intro h
      cases h
    · rintro ⟨k, h⟩
      exact absurd h (firstNamed_nil _ n k v)
  | cons a xs ih =>
    by_cases ha : a.Name = n
    · simp only [BlockValueWithName.loop, if_pos ha,
        firstNamed_cons_hit BlockValue.Name n a xs ha]
      constructor
      · intro h
        exact ⟨0, rfl, (Option.some.inj h).symm⟩
      · rintro ⟨_, _, rfl⟩
        rfl
    · simp only [BlockValueWithName.loop, if_neg ha,
        firstNamed_cons_miss BlockValue.Name n a xs ha, ih]
      constructor
      · rintro ⟨k, h⟩
        exact ⟨k + 1, k, rfl, h⟩
      · rintro ⟨_, k, _, h⟩
        exact ⟨k, h⟩

theorem valueLoop_eq_none_iff (n : String) (xs : List BlockValue) :
    BlockValueWithName.loop n xs = none ↔ ∀ v ∈ xs, v.Name ≠ n := by
  induction xs with
  | nil => simp [BlockValueWithName.loop]
  | cons a xs ih =>
    by_cases ha : a.Name = n
    · simp [BlockValueWithName.loop, ha]
    · simp [BlockValueWithName.loop, ha, ih]

/-- Reading index 0 of a non-empty block list, as `&bs[0]` does. -/
theorem some_get_zero (bs : List Block) (h : 0 < bs.length) :
    some (bs.get ⟨0, h⟩) = bs[0]? := by
  cases bs with
  | nil => exact absurd h (Nat.lt_irrefl 0)
  | cons x xs => simp

/-- The statement loop on a list whose first socket named `n` is `v`: the block
list of `v` either has a length other than one (a reported arity failure, nil
result) or yields its element at index 0 with the interpreter untouched. -/
theorem statementLoop_of_first (i : Interpreter) (n : String) (xs : List BlockStatement)
    (k : Nat) (v : BlockStatement) (h : FirstNamed BlockStatement.Name xs n k v) :
    SingleBlockStatementWithName.loop i n xs =
      some (if v.Blocks.length ≠ 1 then (none, i.Fail arityReason) else (v.Blocks[0]?, i)) := by
  induction xs generalizing k with
  | nil => exact absurd h (firstNamed_nil _ n k v)
  | cons a xs ih =>
    by_cases ha : a.Name = n
    · obtain ⟨_, rfl⟩ := (firstNamed_cons_hit BlockStatement.Name n a xs ha k v).1 h
      simp only [SingleBlockStatementWithName.loop, if_pos ha]
      by_cases hl : v.Blocks.length ≠ 1
      · simp only [dif_pos hl, if_pos hl]
        rfl
      · simp only [dif_neg hl, if_neg hl, some_get_zero]
    · obtain ⟨k0, _, h0⟩ := (firstNamed_cons_miss BlockStatement.Name n a xs ha k v).1 h
      simp only [SingleBlockStatementWithName.loop, if_neg ha]
      exact ih k0 h0

theorem statementLoop_eq_none_iff (i : Interpreter) (n : String) (xs : List BlockStatement) :
    SingleBlockStatementWithName.loop i n xs = none ↔ ∀ v ∈ xs, v.Name ≠ n := by
  induction xs with
  | nil => simp [SingleBlockStatementWithName.loop]
  | cons a xs ih =>
    by_cases ha : a.Name = n
    · by_cases hl : a.Blocks.length ≠ 1
      · simp [SingleBlockStatementWithName.loop, ha, hl]
      · simp [SingleBlockStatementWithName.loop, ha, hl]
    · simp [SingleBlockStatementWithName.loop, ha, ih]

/-- The value lookup on a block whose first socket named `n` is `v`. -/
theorem singleValue_of_first (b : Block) (i : Interpreter) (n : String) (k : Nat)
    (v : BlockValue) (h : FirstNamed BlockValue.Name b.Values n k v) :
    b.SingleBlockValueWithName i n =
      if v.Blocks.length ≠ 1 then (none, i.Fail arityReason) else (v.Blocks[0]?, i) := by
  have hv : b.BlockValueWithName n = some v :=
    (valueLoop_eq_some_iff n b.Values v).2 ⟨k, h⟩
  unfold Block.SingleBlockValueWithName
  rw [hv]
  by_cases hl : v.Blocks.length ≠ 1
  · simp only [dif_pos hl, if_pos hl]
    rfl
  · simp only [dif_neg hl, if_neg hl, some_get_zero]

/-- The statement lookup on a block whose first socket named `n` is `v`. -/
theorem singleStatement_of_first (b : Block) (i : Interpreter) (n : String) (k : Nat)
    (v : BlockStatement) (h : FirstNamed BlockStatement.Name b.Statements n k v) :
    b.SingleBlockStatementWithName i n =
      if v.Blocks.length ≠ 1 then (none, i.Fail arityReason) else (v.Blocks[0]?, i) := by
  unfold Block.SingleBlockStatementWithName
  rw [statementLoop_of_first i n b.Statements k v h]

/-! ## Single-block value lookup -/

/-- C1. `SingleBlockValueWithName`, success case: when the first entry of
`b.Values` named `n` (entry `v`, at index `k`) holds exactly one block, the call
returns that block, `v.Blocks[0]`, and hands back the interpreter `i` as it
received it, so no failure is reported. -/
theorem singleBlockValue_success (b : Block) (i : Interpreter) (n : String) (k : Nat)
    (v : BlockValue) (hfirst : FirstNamed BlockValue.Name b.Values n k v)
    (hone : v.Blocks.length = 1) :
    ∃ blk, v.Blocks[0]? = some blk ∧ b.SingleBlockValueWithName i n = (some blk, i) := by
  have hr := singleValue_of_first b i n k v hfirst
  rw [if_neg (by omega)] at hr
  cases hb : v.Blocks with
  | nil => rw [hb] at hone; cases hone
  | cons x rest =>
    rw [hb] at hr
    exact ⟨x, by simp, by simpa using hr⟩

/-- Witness of C1 on the scenario block: `IF0` of `sampleIf` resolves to
`sampleCond`, and the interpreter is handed back unchanged. -/
theorem singleBlockValue_success_witness :
    FirstNamed BlockValue.Name sampleIf.Values "IF0" 0 (.mk "IF0" [sampleCond]) ∧
    (BlockValue.mk "IF0" [sampleCond]).Blocks.length = 1 ∧
    sampleIf.SingleBlockValueWithName sampleInterp "IF0" = (some sampleCond, sampleInterp) := by
  have h1 : FirstNamed BlockValue.Name sampleIf.Values "IF0" 0 (.mk "IF0" [sampleCond]) :=
    ⟨rfl, rfl, fun j hj => absurd hj (Nat.not_lt_zero j)⟩
  have h2 : (BlockValue.mk "IF0" [sampleCond]).Blocks.length = 1 := rfl
  obtain ⟨blk, hb, hr⟩ :=
    singleBlockValue_success sampleIf sampleInterp "IF0" 0 _ h1 h2
  have hblk : blk = sampleCond := (Option.some.inj hb).symm
  exact ⟨h1, h2, hblk ▸ hr⟩

/-- C2. `SingleBlockValueWithName`, arity violation: when the first entry of
`b.Values` named `n` holds a number of blocks other than one, the call returns
nil and reports exactly one failure, with the arity-violation reason. -/
theorem singleBlockValue_arity (b : Block) (i : Interpreter) (n : String) (k : Nat)
    (v : BlockValue) (hfirst : FirstNamed BlockValue.Name b.Values n k v)
    (hbad : v.Blocks.length ≠ 1) :
    (b.SingleBlockValueWithName i n).1 = none ∧
    (b.SingleBlockValueWithName i n).2.failures =
      i.failures ++ ["Block socket does not have exactly one block attached to it."] := by
  rw [singleValue_of_first b i n k v hfirst, if_pos hbad]
  exact ⟨rfl, rfl⟩

/-- Witness of C2: socket `A` of `sampleBadArity` is its second value and holds
two blocks. -/
theorem singleBlockValue_arity_witness :
    FirstNamed BlockValue.Name sampleBadArity.Values "A" 1
      (.mk "A" [sampleCond, sampleBody]) ∧
    (BlockValue.mk "A" [sampleCond, sampleBody]).Blocks.length ≠ 1 ∧
    (sampleBadArity.SingleBlockValueWithName sampleInterp "A").1 = none ∧
    (sampleBadArity.SingleBlockValueWithName sampleInterp "A").2.failures =
      ["earlier", "Block socket does not have exactly one block attached to it."] := by
  have h1 : FirstNamed BlockValue.Name sampleBadArity.Values "A" 1
      (.mk "A" [sampleCond, sampleBody]) := by
    refine ⟨rfl, rfl, ?_⟩
    intro j hj w hw
    obtain rfl : j = 0 := by omega
    obtain rfl : BlockValue.mk "B" [sampleCond] = w := Option.some.inj hw
    decide
  have h2 : (BlockValue.mk "A" [sampleCond, sampleBody]).Blocks.length ≠ 1 := by decide
  exact ⟨h1, h2, singleBlockValue_arity sampleBadArity sampleInterp "A" 1 _ h1 h2⟩

/-- C3. `SingleBlockValueWithName`, absent socket: when no entry of `b.Values`
is named `n`, the call returns nil and reports exactly one failure, whose reason
is "No block with value " followed by `n`. -/
theorem singleBlockValue_absent (b : Block) (i : Interpreter) (n : String)
    (habs : ∀ v ∈ b.Values, v.Name ≠ n) :
    (b.SingleBlockValueWithName i n).1 = none ∧
    (b.SingleBlockValueWithName i n).2.failures =
      i.failures ++ ["No block with value " ++ n] := by
  have hv : b.BlockValueWithName n = none := (valueLoop_eq_none_iff n b.Values).2 habs
  unfold Block.SingleBlockValueWithName
  rw [hv]
  exact ⟨rfl, rfl⟩

/-- Witness of C3: `sampleIf` has no value socket named `IF1`. -/
theorem singleBlockValue_absent_witness :
    (∀ v ∈ sampleIf.Values, v.Name ≠ "IF1") ∧
    (sampleIf.SingleBlockValueWithName sampleInterp "IF1").1 = none ∧
    (sampleIf.SingleBlockValueWithName sampleInterp "IF1").2.failures =
      ["earlier", "No block with value IF1"] := by
  have h1 : ∀ v ∈ sampleIf.Values, v.Name ≠ "IF1" := by
    intro v hv
    obtain rfl : v = .mk "IF0" [sampleCond] := by simpa [sampleIf, Block.Values] using hv
    decide
  exact ⟨h1, singleBlockValue_absent sampleIf sampleInterp "IF1" h1⟩

/-! ## Single-block statement lookup -/

/-- C4. `SingleBlockStatementWithName`, arity violation: when the first entry of
`b.Statements` named `n` has a block list whose length is not one (in particular
an empty one), the call returns nil and reports exactly one failure, with the
arity-violation reason. -/
theorem singleBlockStatement_arity (b : Block) (i : Interpreter) (n : String) (k : Nat)
    (v : BlockStatement) (hfirst : FirstNamed BlockStatement.Name b.Statements n k v)
    (hbad : v.Blocks.length ≠ 1) :
    (b.SingleBlockStatementWithName i n).1 = none ∧
    (b.SingleBlockStatementWithName i n).2.failures =
      i.failures ++ ["Block socket does not have exactly one block attached to it."] := by
  rw [singleStatement_of_first b i n k v hfirst, if_pos hbad]
  exact ⟨rfl, rfl⟩

/-- Witness of C4: statement `DO` of `sampleBadArity` has no block attached. -/
theorem singleBlockStatement_arity_witness :
    FirstNamed BlockStatement.Name sampleBadArity.Statements "DO" 0
      (.mk ⟨"", "statement"⟩ "DO" []) ∧
    (BlockStatement.mk ⟨"", "statement"⟩ "DO" []).Blocks.length ≠ 1 ∧
    (sampleBadArity.SingleBlockStatementWithName sampleInterp "DO").1 = none ∧
    (sampleBadArity.SingleBlockStatementWithName sampleInterp "DO").2.failures =
      ["earlier", "Block socket does not have exactly one block attached to it."] := by
  have h1 : FirstNamed BlockStatement.Name sampleBadArity.Statements "DO" 0
      (.mk ⟨"", "statement"⟩ "DO" []) :=
    ⟨rfl, rfl, fun j hj => absurd hj (Nat.not_lt_zero j)⟩
  have h2 : (BlockStatement.mk ⟨"", "statement"⟩ "DO" []).Blocks.length ≠ 1 := by decide
  exact ⟨h1, h2, singleBlockStatement_arity sampleBadArity sampleInterp "DO" 0 _ h1 h2⟩

/-- C5. `SingleBlockStatementWithName`, success case: when the first entry of
`b.Statements` named `n` (entry `v`, at index `k`) holds exactly one block, the
call returns that block, `v.Blocks[0]`, the head of the statement's stack, and
hands back the interpreter `i` as it received it, so no failure is reported. -/
theorem singleBlockStatement_success (b : Block) (i : Interpreter) (n : String) (k : Nat)
    (v : BlockStatement) (hfirst : FirstNamed BlockStatement.Name b.Statements n k v)
    (hone : v.Blocks.length = 1) :
    ∃ blk, v.Blocks[0]? = some blk ∧
      b.SingleBlockStatementWithName i n = (some blk, i) := by
  have hr := singleStatement_of_first b i n k v hfirst
  rw [if_neg (by omega)] at hr
  cases hb : v.Blocks with
  | nil => rw [hb] at hone; cases hone
  | cons x rest =>
    rw [hb] at hr
    exact ⟨x, by simp, by simpa using hr⟩

/-- Witness of C5 on the scenario block: `DO0` of `sampleIf` resolves to
`sampleBody`, the head of the body stack, with its `Next` chain attached. -/
theorem singleBlockStatement_success_witness :
    FirstNamed BlockStatement.Name sampleIf.Statements "DO0" 0
      (.mk ⟨"", "statement"⟩ "DO0" [sampleBody]) ∧
    (BlockStatement.mk ⟨"", "statement"⟩ "DO0" [sampleBody]).Blocks.length = 1 ∧
    sampleIf.SingleBlockStatementWithName sampleInterp "DO0" =
      (some sampleBody, sampleInterp) := by
  have h1 : FirstNamed BlockStatement.Name sampleIf.Statements "DO0" 0
      (.mk ⟨"", "statement"⟩ "DO0" [sampleBody]) :=
    ⟨rfl, rfl, fun j hj => absurd hj (Nat.not_lt_zero j)⟩
  have h2 : (BlockStatement.mk ⟨"", "statement"⟩ "DO0" [sampleBody]).Blocks.length = 1 := rfl
  obtain ⟨blk, hb, hr⟩ :=
    singleBlockStatement_success sampleIf sampleInterp "DO0" 0 _ h1 h2
  have hblk : blk = sampleBody := (Option.some.inj hb).symm
  exact ⟨h1, h2, hblk ▸ hr⟩

/-- C6. `SingleBlockStatementWithName`, absent socket: when no entry of
`b.Statements` is named `n`, the call returns nil and reports exactly one
failure, whose reason is "No statement with name " followed by `n`. -/
theorem singleBlockStatement_absent (b : Block) (i : Interpreter) (n : String)
    (habs : ∀ v ∈ b.Statements, v.Name ≠ n) :
    (b.SingleBlockStatementWithName i n).1 = none ∧
    (b.SingleBlockStatementWithName i n).2.failures =
      i.failures ++ ["No statement with name " ++ n] := by
  have hv : SingleBlockStatementWithName.loop i n b.Statements = none :=
    (statementLoop_eq_none_iff i n b.Statements).2 habs
  unfold Block.SingleBlockStatementWithName
  rw [hv]
  exact ⟨rfl, rfl⟩

/-- Witness of C6: `sampleIf` has no statement socket named `ELSE`. -/
theorem singleBlockStatement_absent_witness :
    (∀ v ∈ sampleIf.Statements, v.Name ≠ "ELSE") ∧
    (sampleIf.SingleBlockStatementWithName sampleInterp "ELSE").1 = none ∧
    (sampleIf.SingleBlockStatementWithName sampleInterp "ELSE").2.failures =
      ["earlier", "No statement with name ELSE"] := by
  have h1 : ∀ v ∈ sampleIf.Statements, v.Name ≠ "ELSE" := by
    intro v hv
    obtain rfl : v = .mk ⟨"", "statement"⟩ "DO0" [sampleBody] := by
      simpa [sampleIf, Block.Statements] using hv
    decide
  exact ⟨h1, singleBlockStatement_absent sampleIf sampleInterp "ELSE" h1⟩

/-! ## Field lookup -/

/-- C7. `SingleFieldWithName`, missing field: when no entry of `b.Fields` is
named `n`, the call returns the empty string and reports exactly one failure;
its reason is "No field named " followed by `n`, so it contains `n`. -/
theorem singleField_missing (b : Block) (i : Interpreter) (n : String)
    (habs : ∀ f ∈ b.Fields, f.Name ≠ n) :
    (b.SingleFieldWithName i n).1 = "" ∧
    ∃ reason, (b.SingleFieldWithName i n).2.failures = i.failures ++ [reason] ∧
      reason = "No field named " ++ n ∧ List.IsInfix n.data reason.data := by
  have hv : b.FieldWithName n = none := (fieldLoop_eq_none_iff n b.Fields).2 habs
  unfold Block.SingleFieldWithName
  rw [hv]
  refine ⟨rfl, _, rfl, rfl, ?_⟩
  rw [String.data_append]
  exact (List.suffix_append _ _).isInfix

/-- Witness of C7: `sampleBadArity` has the single field `OP`, none named `X`. -/
theorem singleField_missing_witness :
    (∀ f ∈ sampleBadArity.Fields, f.Name ≠ "X") ∧
    (sampleBadArity.SingleFieldWithName sampleInterp "X").1 = "" ∧
    ∃ reason, (sampleBadArity.SingleFieldWithName sampleInterp "X").2.failures =
        ["earlier", reason] ∧
      reason = "No field named X" ∧ List.IsInfix "X".data reason.data := by
  have h1 : ∀ f ∈ sampleBadArity.Fields, f.Name ≠ "X" := by
    intro f hf
    obtain rfl : f = ⟨"OP", "ADD"⟩ := by simpa [sampleBadArity, Block.Fields] using hf
    decide
  exact ⟨h1, singleField_missing sampleBadArity sampleInterp "X" h1⟩

/-- C8. `FieldWithName` is first-match search over `b.Fields`: it returns the
entry `f` exactly when `f` is the first entry named `n` in list order, so the
payload `f.Value` is the entry's own (an empty payload included), and it returns
nil exactly when no entry is named `n`.  The method takes no interpreter, so it
has no failure channel to invoke. -/
theorem fieldWithName_first_match (b : Block) (n : String) :
    (∀ f, b.FieldWithName n = some f ↔ ∃ k, FirstNamed BlockField.Name b.Fields n k f) ∧
    (∀ k f, FirstNamed BlockField.Name b.Fields n k f →
      (b.FieldWithName n).map BlockField.Value = some f.Value) ∧
    (b.FieldWithName n = none ↔ ∀ f ∈ b.Fields, f.Name ≠ n) := by
  refine ⟨fun f => fieldLoop_eq_some_iff n b.Fields f, ?_, fieldLoop_eq_none_iff n b.Fields⟩
  intro k f h
  have hf : b.FieldWithName n = some f := (fieldLoop_eq_some_iff n b.Fields f).2 ⟨k, h⟩
  rw [hf]
  rfl

/-- Witness of C8: of the two `VALUE` fields of `sampleDup` the lookup returns
the first, whose payload is empty; no field is named `X`, and the lookup is nil. -/
theorem fieldWithName_first_match_witness :
    sampleDup.FieldWithName "VALUE" = some ⟨"VALUE", ""⟩ ∧
    sampleDup.FieldWithName "X" = none := by
  have h := fieldWithName_first_match sampleDup "VALUE"
  have hx := fieldWithName_first_match sampleDup "X"
  refine ⟨(h.1 _).2 ⟨1, rfl, rfl, ?_⟩, hx.2.2.2 ?_⟩
  · intro j hj w hw
    obtain rfl : j = 0 := by omega
    obtain rfl : (⟨"NAME", "x"⟩ : BlockField) = w := Option.some.inj hw
    decide
  · intro f hf
    simp only [sampleDup, Block.Fields, List.mem_cons, List.mem_singleton] at hf
    rcases hf with rfl | rfl | rfl | hf
    · decide
    · decide
    · decide
    · cases hf

/-- C9. `SingleFieldWithName`, present field: when some entry of `b.Fields` is
named `n`, the call returns the `Value` of the first such entry and hands back
the interpreter as it received it; an empty payload yields "" with no failure;
and the record of failures changes if and only if no field is named `n`. -/
theorem singleField_present (b : Block) (i : Interpreter) (n : String) :
    ((∃ f ∈ b.Fields, f.Name = n) →
      ∃ k f, FirstNamed BlockField.Name b.Fields n k f ∧
        b.SingleFieldWithName i n = (f.Value, i)) ∧
    (∀ k f, FirstNamed BlockField.Name b.Fields n k f → f.Value = "" →
      b.SingleFieldWithName i n = ("", i)) ∧
    ((b.SingleFieldWithName i n).2.failures ≠ i.failures ↔ ∀ f ∈ b.Fields, f.Name ≠ n) := by
  have hfirst : ∀ k f, FirstNamed BlockField.Name b.Fields n k f →
      b.SingleFieldWithName i n = (f.Value, i) := by
    intro k f h
    have hf : b.FieldWithName n = some f := (fieldLoop_eq_some_iff n b.Fields f).2 ⟨k, h⟩
    unfold Block.SingleFieldWithName
    rw [hf]
  refine ⟨?_, ?_, ?_⟩
  · intro hex
    obtain ⟨k, f, h⟩ := (exists_firstNamed_iff BlockField.Name b.Fields n).2 hex
    exact ⟨k, f, h, hfirst k f h⟩
  · intro k f h he
    rw [hfirst k f h, he]
  · constructor
    · intro hne f hf hn
      obtain ⟨k, g, h⟩ := (exists_firstNamed_iff BlockField.Name b.Fields n).2 ⟨f, hf, hn⟩
      rw [hfirst k g h] at hne
      exact hne rfl
    · intro habs
      have hv : b.FieldWithName n = none := (fieldLoop_eq_none_iff n b.Fields).2 habs
      unfold Block.SingleFieldWithName
      rw [hv]
      simp [Interpreter.Fail]

/-- Witness of C9: `VALUE` is present twice in `sampleDup`; the call returns the
empty payload of the first one and the interpreter is handed back unchanged. -/
theorem singleField_present_witness :
    (∃ f ∈ sampleDup.Fields, f.Name = "VALUE") ∧
    sampleDup.SingleFieldWithName sampleInterp "VALUE" = ("", sampleInterp) := by
  have hex : ∃ f ∈ sampleDup.Fields, f.Name = "VALUE" :=
    ⟨⟨"VALUE", "2"⟩, by simp [sampleDup, Block.Fields], rfl⟩
  have hfirst : FirstNamed BlockField.Name sampleDup.Fields "VALUE" 1 ⟨"VALUE", ""⟩ := by
    refine ⟨rfl, rfl, ?_⟩
    intro j hj w hw
    obtain rfl : j = 0 := by omega
    obtain rfl : (⟨"NAME", "x"⟩ : BlockField) = w := Option.some.inj hw
    decide
  exact ⟨hex, (singleField_present sampleDup sampleInterp "VALUE").2.1 1 _ hfirst rfl⟩

/-! ## Value-socket lookup -/

/-- C10. `BlockValueWithName` is first-match search over `b.Values`: it returns
the entry `v`, block list included, exactly when `v` is the first entry named
`n` in list order, whatever the number of blocks `v` holds, and it returns nil
exactly when no entry is named `n`.  The method takes no interpreter, so it has
no failure channel to invoke. -/
theorem blockValueWithName_first_match (b : Block) (n : String) :
    (∀ v, b.BlockValueWithName n = some v ↔ ∃ k, FirstNamed BlockValue.Name b.Values n k v) ∧
    (∀ k v, FirstNamed BlockValue.Name b.Values n k v →
      (b.BlockValueWithName n).map BlockValue.Blocks = some v.Blocks) ∧
    (b.BlockValueWithName n = none ↔ ∀ v ∈ b.Values, v.Name ≠ n) := by
  refine ⟨fun v => valueLoop_eq_some_iff n b.Values v, ?_, valueLoop_eq_none_iff n b.Values⟩
  intro k v h
  have hv : b.BlockValueWithName n = some v := (valueLoop_eq_some_iff n b.Values v).2 ⟨k, h⟩
  rw [hv]
  rfl

/-- Witness of C10: the lookup of `A` returns the empty first socket of
`sampleDup` and the two-block second socket of `sampleBadArity`; `sampleIf` has
no socket `A`, and the lookup is nil. -/
theorem blockValueWithName_first_match_witness :
    sampleDup.BlockValueWithName "A" = some (.mk "A" []) ∧
    sampleBadArity.BlockValueWithName "A" = some (.mk "A" [sampleCond, sampleBody]) ∧
    sampleIf.BlockValueWithName "A" = none := by
  refine ⟨((blockValueWithName_first_match sampleDup "A").1 _).2 ⟨0, rfl, rfl, ?_⟩,
    ((blockValueWithName_first_match sampleBadArity "A").1 _).2 ⟨1, rfl, rfl, ?_⟩,
    (blockValueWithName_first_match sampleIf "A").2.2.2 ?_⟩
  · intro j hj
    exact absurd hj (Nat.not_lt_zero j)
  · intro j hj w hw
    obtain rfl : j = 0 := by omega
    obtain rfl : BlockValue.mk "B" [sampleCond] = w := Option.some.inj hw
    decide
  · intro v hv
    obtain rfl : v = .mk "IF0" [sampleCond] := by simpa [sampleIf, Block.Values] using hv
    decide

/-! ## Failure reporting across the three failing accessors -/

theorem singleField_of_first (b : Block) (i : Interpreter) (n : String) (k : Nat)
    (f : BlockField) (h : FirstNamed BlockField.Name b.Fields n k f) :
    b.SingleFieldWithName i n = (f.Value, i) := by
  have hf : b.FieldWithName n = some f := (fieldLoop_eq_some_iff n b.Fields f).2 ⟨k, h⟩
  unfold Block.SingleFieldWithName
  rw [hf]

theorem singleField_of_absent (b : Block) (i : Interpreter) (n : String)
    (h : ∀ f ∈ b.Fields, f.Name ≠ n) :
    b.SingleFieldWithName i n = ("", i.Fail ("No field named " ++ n)) := by
  have hf : b.FieldWithName n = none := (fieldLoop_eq_none_iff n b.Fields).2 h
  unfold Block.SingleFieldWithName
  rw [hf]

theorem singleValue_of_absent (b : Block) (i : Interpreter) (n : String)
    (h : ∀ v ∈ b.Values, v.Name ≠ n) :
    b.SingleBlockValueWithName i n = (none, i.Fail ("No block with value " ++ n)) := by
  have hv : b.BlockValueWithName n = none := (valueLoop_eq_none_iff n b.Values).2 h
  unfold Block.SingleBlockValueWithName
  rw [hv]

theorem singleStatement_of_absent (b : Block) (i : Interpreter) (n : String)
    (h : ∀ v ∈ b.Statements, v.Name ≠ n) :
    b.SingleBlockStatementWithName i n = (none, i.Fail ("No statement with name " ++ n)) := by
  have hv : SingleBlockStatementWithName.loop i n b.Statements = none :=
    (statementLoop_eq_none_iff i n b.Statements).2 h
  unfold Block.SingleBlockStatementWithName
  rw [hv]

/-- A record of failures is never equal to itself extended by one reason. -/
theorem failures_ne_append (l : List String) (reason : String) : l ≠ l ++ [reason] := by
  intro h
  have hlen := congrArg List.length h
  simp at hlen

/-- The outcome on a matched socket with block list `bs`: either nil with one
appended reason, or a block with the record untouched. -/
theorem socket_outcome_cases (i : Interpreter) (bs : List Block) :
    ((if bs.length ≠ 1 then ((none : Option Block), i.Fail arityReason)
        else (bs[0]?, i)).1 = none ∧
      (if bs.length ≠ 1 then ((none : Option Block), i.Fail arityReason)
        else (bs[0]?, i)).2.failures = i.failures ++ [arityReason]) ∨
    ((if bs.length ≠ 1 then ((none : Option Block), i.Fail arityReason)
        else (bs[0]?, i)).1 ≠ none ∧
      (if bs.length ≠ 1 then ((none : Option Block), i.Fail arityReason)
        else (bs[0]?, i)).2 = i) := by
  by_cases hl : bs.length ≠ 1
  · left
    rw [if_pos hl]
    exact ⟨rfl, rfl⟩
  · right
    rw [if_neg hl]
    cases bs with
    | nil => simp at hl
    | cons x rest => simp

/-- The value lookup either returns nil with exactly one appended reason, or a
block with the interpreter untouched. -/
theorem singleValue_cases (b : Block) (i : Interpreter) (n : String) :
    ((b.SingleBlockValueWithName i n).1 = none ∧
      ∃ reason, (b.SingleBlockValueWithName i n).2.failures = i.failures ++ [reason]) ∨
    ((b.SingleBlockValueWithName i n).1 ≠ none ∧ (b.SingleBlockValueWithName i n).2 = i) := by
  by_cases hex : ∃ v ∈ b.Values, v.Name = n
  · obtain ⟨k, v, h⟩ := (exists_firstNamed_iff BlockValue.Name b.Values n).2 hex
    rw [singleValue_of_first b i n k v h]
    rcases socket_outcome_cases i v.Blocks with ⟨h1, h2⟩ | ⟨h1, h2⟩
    · exact Or.inl ⟨h1, _, h2⟩
    · exact Or.inr ⟨h1, h2⟩
  · have habs : ∀ v ∈ b.Values, v.Name ≠ n := fun v hv hn => hex ⟨v, hv, hn⟩
    rw [singleValue_of_absent b i n habs]
    exact Or.inl ⟨rfl, _, rfl⟩

/-- The statement lookup either returns nil with exactly one appended reason, or
a block with the interpreter untouched. -/
theorem singleStatement_cases (b : Block) (i : Interpreter) (n : String) :
    ((b.SingleBlockStatementWithName i n).1 = none ∧
      ∃ reason,
        (b.SingleBlockStatementWithName i n).2.failures = i.failures ++ [reason]) ∨
    ((b.SingleBlockStatementWithName i n).1 ≠ none ∧
      (b.SingleBlockStatementWithName i n).2 = i) := by
  by_cases hex : ∃ v ∈ b.Statements, v.Name = n
  · obtain ⟨k, v, h⟩ := (exists_firstNamed_iff BlockStatement.Name b.Statements n).2 hex
    rw [singleStatement_of_first b i n k v h]
    rcases socket_outcome_cases i v.Blocks with ⟨h1, h2⟩ | ⟨h1, h2⟩
    · exact Or.inl ⟨h1, _, h2⟩
    · exact Or.inr ⟨h1, h2⟩
  · have habs : ∀ v ∈ b.Statements, v.Name ≠ n := fun v hv hn => hex ⟨v, hv, hn⟩
    rw [singleStatement_of_absent b i n habs]
    exact Or.inl ⟨rfl, _, rfl⟩

/-- The single-field lookup either appends exactly one reason or leaves the
interpreter untouched. -/
theorem singleField_cases (b : Block) (i : Interpreter) (n : String) :
    (∃ reason, (b.SingleFieldWithName i n).2.failures = i.failures ++ [reason]) ∨
    (b.SingleFieldWithName i n).2 = i := by
  by_cases hex : ∃ f ∈ b.Fields, f.Name = n
  · obtain ⟨k, f, h⟩ := (exists_firstNamed_iff BlockField.Name b.Fields n).2 hex
    rw [singleField_of_first b i n k f h]
    exact Or.inr rfl
  · have habs : ∀ f ∈ b.Fields, f.Name ≠ n := fun f hf hn => hex ⟨f, hf, hn⟩
    rw [singleField_of_absent b i n habs]
    exact Or.inl ⟨_, rfl⟩

/-- A violated field contract is reported: the result is "" with one reason. -/
theorem singleField_violated (b : Block) (i : Interpreter) (n : String)
    (h : FieldContractViolated b n) :
    (b.SingleFieldWithName i n).1 = "" ∧
    ∃ reason, (b.SingleFieldWithName i n).2.failures = i.failures ++ [reason] := by
  rw [singleField_of_absent b i n h]
  exact ⟨rfl, _, rfl⟩

/-- A satisfied field contract reports nothing. -/
theorem singleField_satisfied (b : Block) (i : Interpreter) (n : String)
    (h : ¬ FieldContractViolated b n) : (b.SingleFieldWithName i n).2 = i := by
  have hex : ∃ f ∈ b.Fields, f.Name = n := by
    by_contra hne
    exact h (fun f hf hn => hne ⟨f, hf, hn⟩)
  obtain ⟨k, f, hfirst⟩ := (exists_firstNamed_iff BlockField.Name b.Fields n).2 hex
  rw [singleField_of_first b i n k f hfirst]

/-- A violated value contract is reported: the result is nil with one reason. -/
theorem singleValue_violated (b : Block) (i : Interpreter) (n : String)
    (h : ValueContractViolated b n) :
    (b.SingleBlockValueWithName i n).1 = none ∧
    ∃ reason, (b.SingleBlockValueWithName i n).2.failures = i.failures ++ [reason] := by
  rcases h with habs | ⟨k, v, hfirst, hl⟩
  · rw [singleValue_of_absent b i n habs]
    exact ⟨rfl, _, rfl⟩
  · rw [singleValue_of_first b i n k v hfirst, if_pos hl]
    exact ⟨rfl, _, rfl⟩

/-- A satisfied value contract yields a block and reports nothing. -/
theorem singleValue_satisfied (b : Block) (i : Interpreter) (n : String)
    (h : ¬ ValueContractViolated b n) :
    (b.SingleBlockValueWithName i n).1 ≠ none ∧ (b.SingleBlockValueWithName i n).2 = i := by
  have hex : ∃ v ∈ b.Values, v.Name = n := by
    by_contra hne
    exact h (Or.inl (fun v hv hn => hne ⟨v, hv, hn⟩))
  obtain ⟨k, v, hfirst⟩ := (exists_firstNamed_iff BlockValue.Name b.Values n).2 hex
  have hl : ¬ v.Blocks.length ≠ 1 := fun hl => h (Or.inr ⟨k, v, hfirst, hl⟩)
  rw [singleValue_of_first b i n k v hfirst, if_neg hl]
  cases hb : v.Blocks with
  | nil => rw [hb] at hl; simp at hl
  | cons x rest => simp

/-- A violated statement contract is reported: the result is nil with one
reason. -/
theorem singleStatement_violated (b : Block) (i : Interpreter) (n : String)
    (h : StatementContractViolated b n) :
    (b.SingleBlockStatementWithName i n).1 = none ∧
    ∃ reason,
      (b.SingleBlockStatementWithName i n).2.failures = i.failures ++ [reason] := by
  rcases h with habs | ⟨k, v, hfirst, hl⟩
  · rw [singleStatement_of_absent b i n habs]
    exact ⟨rfl, _, rfl⟩
  · rw [singleStatement_of_first b i n k v hfirst, if_pos hl]
    exact ⟨rfl, _, rfl⟩

/-- A satisfied statement contract yields a block and reports nothing. -/
theorem singleStatement_satisfied (b : Block) (i : Interpreter) (n : String)
    (h : ¬ StatementContractViolated b n) :
    (b.SingleBlockStatementWithName i n).1 ≠ none ∧
    (b.SingleBlockStatementWithName i n).2 = i := by
  have hex : ∃ v ∈ b.Statements, v.Name = n := by
    by_contra hne
    exact h (Or.inl (fun v hv hn => hne ⟨v, hv, hn⟩))
  obtain ⟨k, v, hfirst⟩ := (exists_firstNamed_iff BlockStatement.Name b.Statements n).2 hex
  have hl : ¬ v.Blocks.length ≠ 1 := fun hl => h (Or.inr ⟨k, v, hfirst, hl⟩)
  rw [singleStatement_of_first b i n k v hfirst, if_neg hl]
  cases hb : v.Blocks with
  | nil => rw [hb] at hl; simp at hl
  | cons x rest => simp

/-- When a violated contract `P` appends exactly one reason to the record `fs0`
and a satisfied one leaves it as it is, reporting and violation coincide. -/
theorem report_iff_violated (P : Prop) (fs fs0 : List String)
    (hv : P → ∃ reason, fs = fs0 ++ [reason]) (hs : ¬ P → fs = fs0) :
    (P ↔ ∃ reason, fs = fs0 ++ [reason]) ∧ (¬ P ↔ fs = fs0) := by
  refine ⟨⟨hv, ?_⟩, ⟨hs, ?_⟩⟩
  · rintro ⟨reason, hr⟩
    by_contra hn
    rw [hs hn] at hr
    exact failures_ne_append fs0 reason hr
  · intro heq hp
    obtain ⟨reason, hr⟩ := hv hp
    rw [heq] at hr
    exact failures_ne_append fs0 reason hr

/-- C11. Exactly-once failure reporting: each call of `SingleFieldWithName`,
`SingleBlockValueWithName` or `SingleBlockStatementWithName` leaves the record of
failures as it was or extends it by exactly one reason; for the two single-block
lookups the result is nil if and only if exactly one reason was appended; and
for each of the three, exactly one reason is appended if and only if the
contract of the lookup is violated (missing field, missing socket, or a first
socket of that name not holding exactly one block), and the record is left as it
was if and only if the contract is satisfied: no violation is swallowed, none is
reported twice, and nothing is reported without a violation. -/
theorem failure_reported_exactly_once (b : Block) (i : Interpreter) (n : String) :
    ((b.SingleFieldWithName i n).2.failures = i.failures ∨
      ∃ reason, (b.SingleFieldWithName i n).2.failures = i.failures ++ [reason]) ∧
    ((b.SingleBlockValueWithName i n).2.failures = i.failures ∨
      ∃ reason, (b.SingleBlockValueWithName i n).2.failures = i.failures ++ [reason]) ∧
    ((b.SingleBlockStatementWithName i n).2.failures = i.failures ∨
      ∃ reason,
        (b.SingleBlockStatementWithName i n).2.failures = i.failures ++ [reason]) ∧
    ((b.SingleBlockValueWithName i n).1 = none ↔
      ∃ reason, (b.SingleBlockValueWithName i n).2.failures = i.failures ++ [reason]) ∧
    ((b.SingleBlockStatementWithName i n).1 = none ↔
      ∃ reason,
        (b.SingleBlockStatementWithName i n).2.failures = i.failures ++ [reason]) ∧
    (FieldContractViolated b n ↔
      ∃ reason, (b.SingleFieldWithName i n).2.failures = i.failures ++ [reason]) ∧
    (¬ FieldContractViolated b n ↔ (b.SingleFieldWithName i n).2.failures = i.failures) ∧
    (ValueContractViolated b n ↔
      ∃ reason, (b.SingleBlockValueWithName i n).2.failures = i.failures ++ [reason]) ∧
    (¬ ValueContractViolated b n ↔
      (b.SingleBlockValueWithName i n).2.failures = i.failures) ∧
    (StatementContractViolated b n ↔
      ∃ reason,
        (b.SingleBlockStatementWithName i n).2.failures = i.failures ++ [reason]) ∧
    (¬ StatementContractViolated b n ↔
      (b.SingleBlockStatementWithName i n).2.failures = i.failures) := by
  have hf := report_iff_violated (FieldContractViolated b n)
    (b.SingleFieldWithName i n).2.failures i.failures
    (fun h => (singleField_violated b i n h).2)
    (fun h => congrArg Interpreter.failures (singleField_satisfied b i n h))
  have hv := report_iff_violated (ValueContractViolated b n)
    (b.SingleBlockValueWithName i n).2.failures i.failures
    (fun h => (singleValue_violated b i n h).2)
    (fun h => congrArg Interpreter.failures (singleValue_satisfied b i n h).2)
  have hs := report_iff_violated (StatementContractViolated b n)
    (b.SingleBlockStatementWithName i n).2.failures i.failures
    (fun h => (singleStatement_violated b i n h).2)
    (fun h => congrArg Interpreter.failures (singleStatement_satisfied b i n h).2)
  refine ⟨?_, ?_, ?_, ?_, ?_, hf.1, hf.2, hv.1, hv.2, hs.1, hs.2⟩
  · rcases singleField_cases b i n with h | h
    · exact Or.inr h
    · exact Or.inl (congrArg Interpreter.failures h)
  · rcases singleValue_cases b i n with ⟨_, h⟩ | ⟨_, h⟩
    · exact Or.inr h
    · exact Or.inl (congrArg Interpreter.failures h)
  · rcases singleStatement_cases b i n with ⟨_, h⟩ | ⟨_, h⟩
    · exact Or.inr h
    · exact Or.inl (congrArg Interpreter.failures h)
  · rcases singleValue_cases b i n with ⟨h1, h2⟩ | ⟨h1, h2⟩
    · exact ⟨fun _ => h2, fun _ => h1⟩
    · constructor
      · intro h
        exact absurd h h1
      · rintro ⟨reason, hr⟩
        rw [h2] at hr
        exact absurd hr (failures_ne_append i.failures reason)
  · rcases singleStatement_cases b i n with ⟨h1, h2⟩ | ⟨h1, h2⟩
    · exact ⟨fun _ => h2, fun _ => h1⟩
    · constructor
      · intro h
        exact absurd h h1
      · rintro ⟨reason, hr⟩
        rw [h2] at hr
        exact absurd hr (failures_ne_append i.failures reason)

/-- Instance of C11.  On `sampleDup` the contracts of value `A` (first socket
empty) and of statement `DO` (first socket holding two blocks) are violated, so
each lookup appends a reason and returns nil; on `sampleIf` the contracts of
`IF0` and `DO0` are satisfied, so the record stays as it was; `sampleBadArity`
has no field `X`, so the field lookup appends a reason. -/
theorem failure_reported_exactly_once_witness :
    (∃ reason, (sampleDup.SingleBlockValueWithName sampleInterp "A").2.failures =
      ["earlier", reason]) ∧
    (sampleDup.SingleBlockValueWithName sampleInterp "A").1 = none ∧
    (∃ reason, (sampleDup.SingleBlockStatementWithName sampleInterp "DO").2.failures =
      ["earlier", reason]) ∧
    (sampleDup.SingleBlockStatementWithName sampleInterp "DO").1 = none ∧
    ¬ ValueContractViolated sampleIf "IF0" ∧
    ¬ StatementContractViolated sampleIf "DO0" ∧
    (∃ reason, (sampleBadArity.SingleFieldWithName sampleInterp "X").2.failures =
      ["earlier", reason]) := by
  have hA := failure_reported_exactly_once sampleDup sampleInterp "A"
  have hDO := failure_reported_exactly_once sampleDup sampleInterp "DO"
  have hIF := failure_reported_exactly_once sampleIf sampleInterp "IF0"
  have hDO0 := failure_reported_exactly_once sampleIf sampleInterp "DO0"
  have hX := failure_reported_exactly_once sampleBadArity sampleInterp "X"
  have vA : ValueContractViolated sampleDup "A" :=
    Or.inr ⟨0, .mk "A" [], ⟨rfl, rfl, fun j hj => absurd hj (Nat.not_lt_zero j)⟩,
      by decide⟩
  have vDO : StatementContractViolated sampleDup "DO" :=
    Or.inr ⟨0, .mk ⟨"", "statement"⟩ "DO" [sampleCond, sampleBody],
      ⟨rfl, rfl, fun j hj => absurd hj (Nat.not_lt_zero j)⟩, by decide⟩
  have vX : FieldContractViolated sampleBadArity "X" := by
    intro f hf
    obtain rfl : f = ⟨"OP", "ADD"⟩ := by simpa [sampleBadArity, Block.Fields] using hf
    decide
  have rA := hA.2.2.2.2.2.2.2.1.1 vA
  have rDO := hDO.2.2.2.2.2.2.2.2.2.1.1 vDO
  exact ⟨rA, hA.2.2.2.1.2 rA, rDO, hDO.2.2.2.2.1.2 rDO,
    hIF.2.2.2.2.2.2.2.2.1.2 rfl, hDO0.2.2.2.2.2.2.2.2.2.2.2 rfl,
    hX.2.2.2.2.2.1.1 vX⟩

/-! ## Calls on the reference a failed lookup returns -/

/-- C12, as the code has it: each of the five accessors dereferences its
receiver without a nil check.  Called on a nil receiver it panics with a nil
dereference, before any failure is reported; called on a receiver that points to
a block it terminates normally with the result of its body. -/
theorem accessor_call_by_receiver (p : Option Block) (j : Interpreter) (m : String) :
    (p = none →
      FieldWithName.call p m = .error .nilDereference ∧
      SingleFieldWithName.call p j m = .error .nilDereference ∧
      BlockValueWithName.call p m = .error .nilDereference ∧
      SingleBlockValueWithName.call p j m = .error .nilDereference ∧
      SingleBlockStatementWithName.call p j m = .error .nilDereference) ∧
    (∀ blk, p = some blk →
      FieldWithName.call p m = .ok (blk.FieldWithName m) ∧
      SingleFieldWithName.call p j m = .ok (blk.SingleFieldWithName j m) ∧
      BlockValueWithName.call p m = .ok (blk.BlockValueWithName m) ∧
      SingleBlockValueWithName.call p j m = .ok (blk.SingleBlockValueWithName j m) ∧
      SingleBlockStatementWithName.call p j m =
        .ok (blk.SingleBlockStatementWithName j m)) := by
  constructor
  · rintro rfl
    exact ⟨rfl, rfl, rfl, rfl, rfl⟩
  · rintro blk rfl
    refine ⟨rfl, ?_, rfl, ?_, ?_⟩
    · simp only [SingleFieldWithName.call, FieldWithName.call, Block.SingleFieldWithName,
        Block.FieldWithName]
      cases FieldWithName.loop m blk.Fields <;> rfl
    · simp only [SingleBlockValueWithName.call, BlockValueWithName.call,
        Block.SingleBlockValueWithName, Block.BlockValueWithName]
      cases hv : BlockValueWithName.loop m blk.Values with
      | none => rfl
      | some bv =>
        by_cases hl : bv.Blocks.length ≠ 1
        · simp only [dif_pos hl]
        · simp only [dif_neg hl]
    · simp only [SingleBlockStatementWithName.call, Block.SingleBlockStatementWithName]
      cases SingleBlockStatementWithName.loop j m blk.Statements <;> rfl

/-- Instance of the amended C12: the successful lookup of `IF0` in `sampleIf`
returns a reference to `sampleCond`, and a field lookup through it terminates
normally. -/
theorem accessor_call_by_receiver_witness :
    FieldWithName.call (sampleIf.SingleBlockValueWithName sampleInterp "IF0").1 "BOOL" =
      .ok (some ⟨"BOOL", "TRUE"⟩) :=
  ((accessor_call_by_receiver (sampleIf.SingleBlockValueWithName sampleInterp "IF0").1
    sampleInterp "BOOL").2 sampleCond rfl).1

/-- Counterexample to C12 as stated: `sampleIf` has no value `IF1` and no
statement `ELSE`, both lookups fail and return nil, and each of the five
accessors called on the returned reference panics instead of terminating
normally. -/
theorem nil_receiver_counterexample :
    (sampleIf.SingleBlockValueWithName sampleInterp "IF1").1 = none ∧
    (sampleIf.SingleBlockStatementWithName sampleInterp "ELSE").1 = none ∧
    FieldWithName.call (sampleIf.SingleBlockValueWithName sampleInterp "IF1").1 "BOOL" =
      .error .nilDereference ∧
    SingleFieldWithName.call (sampleIf.SingleBlockValueWithName sampleInterp "IF1").1
      (sampleIf.SingleBlockValueWithName sampleInterp "IF1").2 "BOOL" =
      .error .nilDereference ∧
    BlockValueWithName.call (sampleIf.SingleBlockValueWithName sampleInterp "IF1").1 "A" =
      .error .nilDereference ∧
    SingleBlockValueWithName.call (sampleIf.SingleBlockValueWithName sampleInterp "IF1").1
      (sampleIf.SingleBlockValueWithName sampleInterp "IF1").2 "A" =
      .error .nilDereference ∧
    SingleBlockStatementWithName.call
      (sampleIf.SingleBlockStatementWithName sampleInterp "ELSE").1
      (sampleIf.SingleBlockStatementWithName sampleInterp "ELSE").2 "DO" =
      .error .nilDereference ∧
    ¬ ∃ r, FieldWithName.call (sampleIf.SingleBlockValueWithName sampleInterp "IF1").1
      "BOOL" = .ok r := by
  refine ⟨rfl, rfl, rfl, rfl, rfl, rfl, rfl, ?_⟩
  rintro ⟨r, hr⟩
  cases hr

/-! ## Frame of the accessors -/

theorem keepsTree_ret {α : Type} (a : α) : (Exec.ret a).KeepsTree :=
  fun _ => rfl

theorem keepsTree_seq {α β : Type} (m : Exec α) (f : α → Exec β) (hm : m.KeepsTree)
    (hf : ∀ a, (f a).KeepsTree) : (Exec.seq m f).KeepsTree :=
  fun w => (hf (m w).1 (m w).2).trans (hm w)

theorem keepsTree_readFields : Exec.readFields.KeepsTree :=
  fun _ => rfl

theorem keepsTree_readValues : Exec.readValues.KeepsTree :=
  fun _ => rfl

theorem keepsTree_readStatements : Exec.readStatements.KeepsTree :=
  fun _ => rfl

theorem keepsTree_callFail (reason : String) : (Exec.callFail reason).KeepsTree :=
  fun _ => rfl

/-- An assignment to a field of the receiver does not keep the tree: after
`b.Fields = nil` on `sampleDup` the field list differs. -/
theorem assignFields_changes_tree : ¬ (Exec.assignFields []).KeepsTree := by
  intro h
  have hf := congrArg Block.Fields (h ⟨sampleDup, sampleInterp⟩)
  cases hf

theorem keepsTree_fieldBody (n : String) : (FieldWithName.body n).KeepsTree :=
  keepsTree_seq _ _ keepsTree_readFields (fun _ => keepsTree_ret _)

theorem keepsTree_singleFieldBody (n : String) : (SingleFieldWithName.body n).KeepsTree := by
  refine keepsTree_seq _ _ (keepsTree_fieldBody n) ?_
  intro fv
  cases fv with
  | none => exact keepsTree_seq _ _ (keepsTree_callFail _) (fun _ => keepsTree_ret _)
  | some f => exact keepsTree_ret _

theorem keepsTree_valueBody (n : String) : (BlockValueWithName.body n).KeepsTree :=
  keepsTree_seq _ _ keepsTree_readValues (fun _ => keepsTree_ret _)

theorem keepsTree_singleValueBody (n : String) :
    (SingleBlockValueWithName.body n).KeepsTree := by
  refine keepsTree_seq _ _ (keepsTree_valueBody n) ?_
  intro bv
  cases bv with
  | none => exact keepsTree_seq _ _ (keepsTree_callFail _) (fun _ => keepsTree_ret _)
  | some v =>
    by_cases hl : v.Blocks.length ≠ 1
    · simp only [dif_pos hl]
      exact keepsTree_seq _ _ (keepsTree_callFail _) (fun _ => keepsTree_ret _)
    · simp only [dif_neg hl]
      exact keepsTree_ret _

theorem keepsTree_rangeBody (n : String) (ss : List BlockStatement) :
    (SingleBlockStatementWithName.rangeBody n ss).KeepsTree := by
  induction ss with
  | nil => exact keepsTree_ret _
  | cons v rest ih =>
    by_cases hv : v.Name = n
    · by_cases hl : v.Blocks.length ≠ 1
      · simp only [SingleBlockStatementWithName.rangeBody, if_pos hv, dif_pos hl]
        exact keepsTree_seq _ _ (keepsTree_callFail _) (fun _ => keepsTree_ret _)
      · simp only [SingleBlockStatementWithName.rangeBody, if_pos hv, dif_neg hl]
        exact keepsTree_ret _
    · simp only [SingleBlockStatementWithName.rangeBody, if_neg hv]
      exact ih

theorem keepsTree_singleStatementBody (n : String) :
    (SingleBlockStatementWithName.body n).KeepsTree := by
  refine keepsTree_seq _ _ keepsTree_readStatements ?_
  intro ss
  refine keepsTree_seq _ _ (keepsTree_rangeBody n ss) ?_
  intro r
  cases r with
  | none => exact keepsTree_seq _ _ (keepsTree_callFail _) (fun _ => keepsTree_ret _)
  | some blk => exact keepsTree_ret _

/-- The body of `FieldWithName` computes the accessor's result. -/
theorem fieldBody_eq (n : String) (w : World) :
    FieldWithName.body n w = (w.tree.FieldWithName n, w) := rfl

/-- The body of `BlockValueWithName` computes the accessor's result. -/
theorem valueBody_eq (n : String) (w : World) :
    BlockValueWithName.body n w = (w.tree.BlockValueWithName n, w) := rfl

/-- The body of `SingleFieldWithName` computes the accessor's result and
interpreter. -/
theorem singleFieldBody_eq (n : String) (w : World) :
    SingleFieldWithName.body n w =
      ((w.tree.SingleFieldWithName w.interp n).1,
        ⟨w.tree, (w.tree.SingleFieldWithName w.interp n).2⟩) := by
  simp only [SingleFieldWithName.body, Exec.seq, fieldBody_eq, Block.SingleFieldWithName]
  cases w.tree.FieldWithName n <;> rfl

/-- The body of `SingleBlockValueWithName` computes the accessor's result and
interpreter. -/
theorem singleValueBody_eq (n : String) (w : World) :
    SingleBlockValueWithName.body n w =
      ((w.tree.SingleBlockValueWithName w.interp n).1,
        ⟨w.tree, (w.tree.SingleBlockValueWithName w.interp n).2⟩) := by
  simp only [SingleBlockValueWithName.body, Exec.seq, valueBody_eq,
    Block.SingleBlockValueWithName]
  cases w.tree.BlockValueWithName n with
  | none => rfl
  | some v =>
    by_cases hl : v.Blocks.length ≠ 1
    · simp only [dif_pos hl]
      rfl
    · simp only [dif_neg hl]
      rfl

/-- The range loop of the statement body computes what the accessor's loop
computes. -/
theorem rangeBody_eq (n : String) (ss : List BlockStatement) (w : World) :
    SingleBlockStatementWithName.rangeBody n ss w =
      match SingleBlockStatementWithName.loop w.interp n ss with
      | some r => (some r.1, ⟨w.tree, r.2⟩)
      | none => (none, w) := by
  induction ss with
  | nil => rfl
  | cons v rest ih =>
    by_cases hv : v.Name = n
    · by_cases hl : v.Blocks.length ≠ 1
      · simp only [SingleBlockStatementWithName.rangeBody,
          SingleBlockStatementWithName.loop, if_pos hv, dif_pos hl]
        rfl
      · simp only [SingleBlockStatementWithName.rangeBody,
          SingleBlockStatementWithName.loop, if_pos hv, dif_neg hl]
        rfl
    · simp only [SingleBlockStatementWithName.rangeBody,
        SingleBlockStatementWithName.loop, if_neg hv]
      exact ih

/-- The body of `SingleBlockStatementWithName` computes the accessor's result
and interpreter. -/
theorem singleStatementBody_eq (n : String) (w : World) :
    SingleBlockStatementWithName.body n w =
      ((w.tree.SingleBlockStatementWithName w.interp n).1,
        ⟨w.tree, (w.tree.SingleBlockStatementWithName w.interp n).2⟩) := by
  simp only [SingleBlockStatementWithName.body, Exec.seq, Exec.readStatements,
    rangeBody_eq, Block.SingleBlockStatementWithName]
  cases SingleBlockStatementWithName.loop w.interp n w.tree.Statements <;> rfl

/-- The interpreter after an accessor call is untouched or has exactly one more
reason in its record. -/
theorem run_interp_cases (a : Accessor) (n : String) (w : World) :
    (a.run n w).2.interp = w.interp ∨
    ∃ reason, (a.run n w).2.interp.failures = w.interp.failures ++ [reason] := by
  cases a with
  | FieldWithName => exact Or.inl rfl
  | BlockValueWithName => exact Or.inl rfl
  | SingleFieldWithName =>
    simp only [Accessor.run, Exec.seq, Exec.ret, singleFieldBody_eq]
    rcases singleField_cases w.tree w.interp n with h | h
    · exact Or.inr h
    · exact Or.inl h
  | SingleBlockValueWithName =>
    simp only [Accessor.run, Exec.seq, Exec.ret, singleValueBody_eq]
    rcases singleValue_cases w.tree w.interp n with ⟨_, h⟩ | ⟨_, h⟩
    · exact Or.inr h
    · exact Or.inl h
  | SingleBlockStatementWithName =>
    simp only [Accessor.run, Exec.seq, Exec.ret, singleStatementBody_eq]
    rcases singleStatement_cases w.tree w.interp n with ⟨_, h⟩ | ⟨_, h⟩
    · exact Or.inr h
    · exact Or.inl h

/-- Every accessor body keeps the tree: it is a sequence of field reads, calls
of `i.Fail` and returns, each of which keeps it. -/
theorem keepsTree_run (a : Accessor) (n : String) : (a.run n).KeepsTree := by
  cases a with
  | FieldWithName =>
    exact keepsTree_seq _ _ (keepsTree_fieldBody n) (fun _ => keepsTree_ret _)
  | SingleFieldWithName =>
    exact keepsTree_seq _ _ (keepsTree_singleFieldBody n) (fun _ => keepsTree_ret _)
  | BlockValueWithName =>
    exact keepsTree_seq _ _ (keepsTree_valueBody n) (fun _ => keepsTree_ret _)
  | SingleBlockValueWithName =>
    exact keepsTree_seq _ _ (keepsTree_singleValueBody n) (fun _ => keepsTree_ret _)
  | SingleBlockStatementWithName =>
    exact keepsTree_seq _ _ (keepsTree_singleStatementBody n) (fun _ => keepsTree_ret _)

/-- C13. Accessors do not mutate the tree: running the body of any of the five
accessors from any state, whatever its outcome, ends in a state whose tree is
the one the call started with, in every component (`Type`, `X`, `Y`, `Values`,
`Fields`, `Statements`, `Next`, `Mutation`); the only part of the state that can
differ is the interpreter, which is untouched or has exactly one more reason in
its record of failures. -/
theorem accessor_leaves_tree_unchanged (a : Accessor) (n : String) (w : World) :
    (a.run n w).2.tree = w.tree ∧
    (a.run n w).2.tree.Type_ = w.tree.Type_ ∧
    (a.run n w).2.tree.X = w.tree.X ∧
    (a.run n w).2.tree.Y = w.tree.Y ∧
    (a.run n w).2.tree.Values = w.tree.Values ∧
    (a.run n w).2.tree.Fields = w.tree.Fields ∧
    (a.run n w).2.tree.Statements = w.tree.Statements ∧
    (a.run n w).2.tree.Next = w.tree.Next ∧
    (a.run n w).2.tree.Mutation = w.tree.Mutation ∧
    ((a.run n w).2.interp = w.interp ∨
      ∃ reason, (a.run n w).2.interp.failures = w.interp.failures ++ [reason]) := by
  have ht : (a.run n w).2.tree = w.tree := keepsTree_run a n w
  exact ⟨ht, by rw [ht], by rw [ht], by rw [ht], by rw [ht], by rw [ht], by rw [ht],
    by rw [ht], by rw [ht], run_interp_cases a n w⟩

/-- Instance of C13: the failing statement lookup `DO` on `sampleBadArity`
leaves the tree as it was and adds one reason to the record. -/
theorem accessor_leaves_tree_unchanged_witness :
    (Accessor.SingleBlockStatementWithName.run "DO" ⟨sampleBadArity, sampleInterp⟩).2.tree =
      sampleBadArity ∧
    (Accessor.SingleBlockStatementWithName.run "DO"
      ⟨sampleBadArity, sampleInterp⟩).2.interp.failures =
      ["earlier", "Block socket does not have exactly one block attached to it."] :=
  ⟨(accessor_leaves_tree_unchanged .SingleBlockStatementWithName "DO"
    ⟨sampleBadArity, sampleInterp⟩).1, rfl⟩

/-! ## Mutation decoding -/

theorem decodeBoolAttr_spec (readBool : String → Option Bool) (o : Option String)
    (h : ∀ s, o = some s → ∃ v, readBool s = some v) :
    ∃ v, decodeBoolAttr readBool o = some v ∧ (o = none → v = false) ∧
      (∀ s, o = some s → readBool s = some v) := by
  cases o with
  | none =>
    refine ⟨false, rfl, fun _ => rfl, ?_⟩
    intro s hs
    cases hs
  | some t =>
    obtain ⟨v, hv⟩ := h t rfl
    refine ⟨v, hv, ?_, ?_⟩
    · intro hn
      cases hn
    · intro s hs
      cases hs
      exact hv

theorem decodeIntAttr_spec (readInt : String → Option Int) (o : Option String)
    (h : ∀ s, o = some s → ∃ v, readInt s = some v) :
    ∃ v, decodeIntAttr readInt o = some v ∧ (o = none → v = 0) ∧
      (∀ s, o = some s → readInt s = some v) := by
  cases o with
  | none =>
    refine ⟨0, rfl, fun _ => rfl, ?_⟩
    intro s hs
    cases hs
  | some t =>
    obtain ⟨v, hv⟩ := h t rfl
    refine ⟨v, hv, ?_, ?_⟩
    · intro hn
      cases hn
    · intro s hs
      cases hs
      exact hv

theorem decodeStringAttr_spec (o : Option String) :
    (o = none → decodeStringAttr o = "") ∧ (∀ s, o = some s → decodeStringAttr o = s) := by
  cases o with
  | none =>
    refine ⟨fun _ => rfl, ?_⟩
    intro s hs
    cases hs
  | some t =>
    refine ⟨?_, ?_⟩
    · intro hn
      cases hn
    · intro s hs
      cases hs
      rfl

/-- C14. Mutation decoding defaults: for a mutation element whose present
boolean and integer attributes carry readable text, decoding yields a
`BlockMutation` in which each absent attribute has left its field at the default
(`At`, `At1`, `At2`, `Statement` false; `ElseIf`, `Else`, `Items` 0; `Mode` "")
and each present attribute has given its field the value its text denotes. -/
theorem mutation_decoding_defaults (readBool : String → Option Bool)
    (readInt : String → Option Int) (e : MutationElement)
    (hbool : ∀ name ∈ ["at", "at1", "at2", "statement"], ∀ s, e.attr name = some s →
      ∃ v, readBool s = some v)
    (hint : ∀ name ∈ ["elseif", "else", "items"], ∀ s, e.attr name = some s →
      ∃ v, readInt s = some v) :
    ∃ m, decodeMutation readBool readInt e = some m ∧
      (e.attr "at" = none → m.At = false) ∧
      (e.attr "at1" = none → m.At1 = false) ∧
      (e.attr "at2" = none → m.At2 = false) ∧
      (e.attr "elseif" = none → m.ElseIf = 0) ∧
      (e.attr "else" = none → m.Else = 0) ∧
      (e.attr "items" = none → m.Items = 0) ∧
      (e.attr "mode" = none → m.Mode = "") ∧
      (e.attr "statement" = none → m.Statement = false) ∧
      (∀ s, e.attr "at" = some s → readBool s = some m.At) ∧
      (∀ s, e.attr "at1" = some s → readBool s = some m.At1) ∧
      (∀ s, e.attr "at2" = some s → readBool s = some m.At2) ∧
      (∀ s, e.attr "elseif" = some s → readInt s = some m.ElseIf) ∧
      (∀ s, e.attr "else" = some s → readInt s = some m.Else) ∧
      (∀ s, e.attr "items" = some s → readInt s = some m.Items) ∧
      (∀ s, e.attr "mode" = some s → m.Mode = s) ∧
      (∀ s, e.attr "statement" = some s → readBool s = some m.Statement) := by
  obtain ⟨a0, h0, d0, p0⟩ :=
    decodeBoolAttr_spec readBool (e.attr "at") (hbool "at" (by simp))
  obtain ⟨a1, h1, d1, p1⟩ :=
    decodeBoolAttr_spec readBool (e.attr "at1") (hbool "at1" (by simp))
  obtain ⟨a2, h2, d2, p2⟩ :=
    decodeBoolAttr_spec readBool (e.attr "at2") (hbool "at2" (by simp))
  obtain ⟨st, hs, ds, ps⟩ :=
    decodeBoolAttr_spec readBool (e.attr "statement") (hbool "statement" (by simp))
  obtain ⟨ei, hei, dei, pei⟩ :=
    decodeIntAttr_spec readInt (e.attr "elseif") (hint "elseif" (by simp))
  obtain ⟨el, hel, del, pel⟩ :=
    decodeIntAttr_spec readInt (e.attr "else") (hint "else" (by simp))
  obtain ⟨it, hit, dit, pit⟩ :=
    decodeIntAttr_spec readInt (e.attr "items") (hint "items" (by simp))
  have hm := decodeStringAttr_spec (e.attr "mode")
  refine ⟨⟨a0, a1, a2, ei, el, it, decodeStringAttr (e.attr "mode"), st⟩, ?_,
    d0, d1, d2, dei, del, dit, hm.1, ds, p0, p1, p2, pei, pel, pit, hm.2, ps⟩
  simp only [decodeMutation, h0, h1, h2, hs, hei, hel, hit]

/-- Witness of C14 on the spec's example: `elseif="2"` and no other attribute
decodes to `ElseIf = 2`, `Else = 0`, `Mode = ""`. -/
theorem mutation_decoding_defaults_witness :
    ∃ m, decodeMutation sampleReadBool sampleReadInt sampleMutationElement = some m ∧
      m.ElseIf = 2 ∧ m.Else = 0 ∧ m.Mode = "" ∧ m.At = false := by
  have hbool : ∀ name ∈ ["at", "at1", "at2", "statement"], ∀ s,
      sampleMutationElement.attr name = some s → ∃ v, sampleReadBool s = some v := by
    intro name hn s hs
    simp only [List.mem_cons, List.mem_singleton] at hn
    rcases hn with rfl | rfl | rfl | rfl | hn
    · cases hs
    · cases hs
    · cases hs
    · cases hs
    · cases hn
  have hint : ∀ name ∈ ["elseif", "else", "items"], ∀ s,
      sampleMutationElement.attr name = some s → ∃ v, sampleReadInt s = some v := by
    intro name hn s hs
    simp only [List.mem_cons, List.mem_singleton] at hn
    rcases hn with rfl | rfl | rfl | hn
    · cases hs
      exact ⟨2, rfl⟩
    · cases hs
    · cases hs
    · cases hn
  obtain ⟨m, hm, h0, _, _, _, hel, _, hmode, _, _, _, _, hei, _⟩ :=
    mutation_decoding_defaults sampleReadBool sampleReadInt sampleMutationElement hbool hint
  have h2 : sampleReadInt "2" = some m.ElseIf := hei "2" rfl
  have h2v : sampleReadInt "2" = some 2 := rfl
  exact ⟨m, hm, (Option.some.inj (h2.symm.trans h2v)), hel rfl, hmode rfl, h0 rfl⟩

/-! ## Duplicated socket names -/

/-- In `pre ++ v :: post`, with no entry of `pre` named `n` and `v` named `n`,
the first entry named `n` is `v`, whatever `post` is. -/
theorem firstNamed_append {α : Type} (key : α → String) (n : String) (pre : List α)
    (v : α) (post : List α) (hpre : ∀ w ∈ pre, key w ≠ n) (hv : key v = n) :
    FirstNamed key (pre ++ v :: post) n pre.length v := by
  induction pre with
  | nil => exact (firstNamed_cons_hit key n v post hv 0 v).2 ⟨rfl, rfl⟩
  | cons a pre ih =>
    have ha : key a ≠ n := hpre a (by simp)
    have hrest : ∀ w ∈ pre, key w ≠ n := fun w hw => hpre w (List.mem_cons_of_mem a hw)
    exact (firstNamed_cons_miss key n a (pre ++ v :: post) ha (pre.length + 1) v).2
      ⟨pre.length, rfl, ih hrest⟩

/-- C15. First match wins, with no fall-through on duplicates: two blocks whose
value lists agree up to and including the first socket named `n` give the same
outcome of `SingleBlockValueWithName`, whatever follows that socket, and if that
socket holds a number of blocks other than one the lookup returns nil with the
arity-violation reason reported, also when a later socket named `n` holds
exactly one block; likewise for statement lists and
`SingleBlockStatementWithName`. -/
theorem first_match_wins (i : Interpreter) (n : String) :
    (∀ (b1 b2 : Block) (pre : List BlockValue) (v : BlockValue)
        (post1 post2 : List BlockValue),
      (∀ w ∈ pre, w.Name ≠ n) → v.Name = n →
      b1.Values = pre ++ v :: post1 → b2.Values = pre ++ v :: post2 →
      b1.SingleBlockValueWithName i n = b2.SingleBlockValueWithName i n ∧
      (v.Blocks.length ≠ 1 →
        (b1.SingleBlockValueWithName i n).1 = none ∧
        (b1.SingleBlockValueWithName i n).2.failures = i.failures ++
          ["Block socket does not have exactly one block attached to it."])) ∧
    (∀ (b1 b2 : Block) (pre : List BlockStatement) (v : BlockStatement)
        (post1 post2 : List BlockStatement),
      (∀ w ∈ pre, w.Name ≠ n) → v.Name = n →
      b1.Statements = pre ++ v :: post1 → b2.Statements = pre ++ v :: post2 →
      b1.SingleBlockStatementWithName i n = b2.SingleBlockStatementWithName i n ∧
      (v.Blocks.length ≠ 1 →
        (b1.SingleBlockStatementWithName i n).1 = none ∧
        (b1.SingleBlockStatementWithName i n).2.failures = i.failures ++
          ["Block socket does not have exactly one block attached to it."])) := by
  constructor
  · intro b1 b2 pre v post1 post2 hpre hv h1 h2
    have f1 : FirstNamed BlockValue.Name b1.Values n pre.length v := by
      rw [h1]
      exact firstNamed_append BlockValue.Name n pre v post1 hpre hv
    have f2 : FirstNamed BlockValue.Name b2.Values n pre.length v := by
      rw [h2]
      exact firstNamed_append BlockValue.Name n pre v post2 hpre hv
    rw [singleValue_of_first b1 i n _ v f1, singleValue_of_first b2 i n _ v f2]
    refine ⟨rfl, ?_⟩
    intro hbad
    rw [if_pos hbad]
    exact ⟨rfl, rfl⟩
  · intro b1 b2 pre v post1 post2 hpre hv h1 h2
    have f1 : FirstNamed BlockStatement.Name b1.Statements n pre.length v := by
      rw [h1]
      exact firstNamed_append BlockStatement.Name n pre v post1 hpre hv
    have f2 : FirstNamed BlockStatement.Name b2.Statements n pre.length v := by
      rw [h2]
      exact firstNamed_append BlockStatement.Name n pre v post2 hpre hv
    rw [singleStatement_of_first b1 i n _ v f1, singleStatement_of_first b2 i n _ v f2]
    refine ⟨rfl, ?_⟩
    intro hbad
    rw [if_pos hbad]
    exact ⟨rfl, rfl⟩

/-- Instance of C15 on `sampleDup`: the first value `A` is empty and the second
holds one block, the first statement `DO` holds two blocks and the second one;
both lookups return nil and report the arity violation. -/
theorem first_match_wins_witness :
    (sampleDup.SingleBlockValueWithName sampleInterp "A").1 = none ∧
    (sampleDup.SingleBlockValueWithName sampleInterp "A").2.failures =
      ["earlier", "Block socket does not have exactly one block attached to it."] ∧
    (sampleDup.SingleBlockStatementWithName sampleInterp "DO").1 = none ∧
    (sampleDup.SingleBlockStatementWithName sampleInterp "DO").2.failures =
      ["earlier", "Block socket does not have exactly one block attached to it."] := by
  have hv := ((first_match_wins sampleInterp "A").1 sampleDup sampleDup [] (.mk "A" [])
    [.mk "A" [sampleCond]] [.mk "A" [sampleCond]] (by simp) rfl rfl rfl).2 (by decide)
  have hs := ((first_match_wins sampleInterp "DO").2 sampleDup sampleDup []
    (.mk ⟨"", "statement"⟩ "DO" [sampleCond, sampleBody])
    [.mk ⟨"", "statement"⟩ "DO" [sampleBody]] [.mk ⟨"", "statement"⟩ "DO" [sampleBody]]
    (by simp) rfl rfl rfl).2 (by decide)
  exact ⟨hv.1, hv.2, hs.1, hs.2⟩

/-! ## Value lookup against statement lookup -/

/-- On a statement list that mirrors a value list (same names, same block lists,
same order) the statement loop takes, at the first match, the decision the value
lookup takes on the socket `BlockValueWithName` finds. -/
theorem loops_agree (i : Interpreter) (n : String) (vs : List BlockValue) :
    ∀ ss : List BlockStatement,
      ss.map (fun s => (s.Name, s.Blocks)) = vs.map (fun v => (v.Name, v.Blocks)) →
      SingleBlockStatementWithName.loop i n ss =
        (BlockValueWithName.loop n vs).map (fun bv =>
          if bv.Blocks.length ≠ 1 then (none, i.Fail arityReason) else (bv.Blocks[0]?, i)) := by
  induction vs with
  | nil =>
    intro ss h
    cases ss with
    | nil => rfl
    | cons s ss => simp at h
  | cons v vs ih =>
    intro ss h
    cases ss with
    | nil => simp at h
    | cons s ss =>
      simp only [List.map_cons, List.cons.injEq, Prod.mk.injEq] at h
      obtain ⟨⟨hn, hb⟩, ht⟩ := h
      by_cases hv : v.Name = n
      · have hs : s.Name = n := hn.trans hv
        simp only [SingleBlockStatementWithName.loop, BlockValueWithName.loop, if_pos hv,
          if_pos hs, Option.map_some']
        by_cases hl : s.Blocks.length ≠ 1
        · have hlv : v.Blocks.length ≠ 1 := hb ▸ hl
          simp only [dif_pos hl, if_pos hlv]
          rfl
        · have hlv : ¬ v.Blocks.length ≠ 1 := hb ▸ hl
          simp only [dif_neg hl, if_neg hlv, some_get_zero]
          rw [hb]
      · have hs : s.Name ≠ n := fun h0 => hv (hn.symm.trans h0)
        simp only [SingleBlockStatementWithName.loop, BlockValueWithName.loop, if_neg hv,
          if_neg hs]
        exact ih ss ht

/-- C16. Statement lookup has the arity contract of value lookup: when
`b2.Statements` lists the socket names and block lists of `b1.Values` in the
same order, `SingleBlockValueWithName` on `b1` and
`SingleBlockStatementWithName` on `b2` return the same reference and report the
same number of failures; when a socket named `n` exists the two outcomes are
equal, reason text included, and when none exists they differ only in the
reason, "No block with value " against "No statement with name ". -/
theorem statement_lookup_mirrors_value_lookup (b1 b2 : Block) (i : Interpreter)
    (n : String)
    (hsame : b2.Statements.map (fun s => (s.Name, s.Blocks)) =
      b1.Values.map (fun v => (v.Name, v.Blocks))) :
    (b1.SingleBlockValueWithName i n).1 = (b2.SingleBlockStatementWithName i n).1 ∧
    (b1.SingleBlockValueWithName i n).2.failures.length =
      (b2.SingleBlockStatementWithName i n).2.failures.length ∧
    ((∃ v ∈ b1.Values, v.Name = n) →
      b1.SingleBlockValueWithName i n = b2.SingleBlockStatementWithName i n) ∧
    ((∀ v ∈ b1.Values, v.Name ≠ n) →
      b1.SingleBlockValueWithName i n = (none, i.Fail ("No block with value " ++ n)) ∧
      b2.SingleBlockStatementWithName i n =
        (none, i.Fail ("No statement with name " ++ n))) := by
  have hloop := loops_agree i n b1.Values b2.Statements hsame
  by_cases hex : ∃ v ∈ b1.Values, v.Name = n
  · obtain ⟨k, v, hfirst⟩ := (exists_firstNamed_iff BlockValue.Name b1.Values n).2 hex
    have hv : BlockValueWithName.loop n b1.Values = some v :=
      (valueLoop_eq_some_iff n b1.Values v).2 ⟨k, hfirst⟩
    have h2 : b2.SingleBlockStatementWithName i n =
        if v.Blocks.length ≠ 1 then (none, i.Fail arityReason) else (v.Blocks[0]?, i) := by
      unfold Block.SingleBlockStatementWithName
      rw [hloop, hv]
      rfl
    have heq : b1.SingleBlockValueWithName i n = b2.SingleBlockStatementWithName i n := by
      rw [singleValue_of_first b1 i n k v hfirst, h2]
    refine ⟨by rw [heq], by rw [heq], fun _ => heq, ?_⟩
    intro habs
    obtain ⟨w, hw, hwn⟩ := hex
    exact absurd hwn (habs w hw)
  · have habs : ∀ v ∈ b1.Values, v.Name ≠ n := fun v hv hn => hex ⟨v, hv, hn⟩
    have hv : BlockValueWithName.loop n b1.Values = none :=
      (valueLoop_eq_none_iff n b1.Values).2 habs
    have h1 := singleValue_of_absent b1 i n habs
    have h2 : b2.SingleBlockStatementWithName i n =
        (none, i.Fail ("No statement with name " ++ n)) := by
      unfold Block.SingleBlockStatementWithName
      rw [hloop, hv]
      rfl
    refine ⟨by rw [h1, h2], ?_, fun h => absurd h hex, fun _ => ⟨h1, h2⟩⟩
    rw [h1, h2]
    simp [Interpreter.Fail]

/-- Witness of C16: the statements of `sampleMirror` mirror the values of
`sampleDup`; on `A` both lookups return nil with the same arity reason, and on
the absent `B` both return nil with reasons that differ in wording only. -/
theorem statement_lookup_mirrors_value_lookup_witness :
    sampleMirror.Statements.map (fun s => (s.Name, s.Blocks)) =
      sampleDup.Values.map (fun v => (v.Name, v.Blocks)) ∧
    sampleDup.SingleBlockValueWithName sampleInterp "A" =
      sampleMirror.SingleBlockStatementWithName sampleInterp "A" ∧
    (sampleDup.SingleBlockValueWithName sampleInterp "B").2.failures =
      ["earlier", "No block with value B"] ∧
    (sampleMirror.SingleBlockStatementWithName sampleInterp "B").2.failures =
      ["earlier", "No statement with name B"] := by
  have hsame : sampleMirror.Statements.map (fun s => (s.Name, s.Blocks)) =
      sampleDup.Values.map (fun v => (v.Name, v.Blocks)) := rfl
  have hA := statement_lookup_mirrors_value_lookup sampleDup sampleMirror sampleInterp "A"
    hsame
  have hB := statement_lookup_mirrors_value_lookup sampleDup sampleMirror sampleInterp "B"
    hsame
  have habs : ∀ v ∈ sampleDup.Values, v.Name ≠ "B" := by
    intro v hv
    simp only [sampleDup, Block.Values, List.mem_cons, List.mem_singleton] at hv
    rcases hv with rfl | rfl | hv
    · decide
    · decide
    · cases hv
  have hex : ∃ v ∈ sampleDup.Values, v.Name = "A" :=
    ⟨.mk "A" [], by simp [sampleDup, Block.Values], rfl⟩
  obtain ⟨hb1, hb2⟩ := hB.2.2.2 habs
  exact ⟨hsame, hA.2.2.1 hex, by rw [hb1]; rfl, by rw [hb2]; rfl⟩

end goblockly
